import Mathlib

/-!
Verification development for the fumadocs-transpiler repository.

The definitions below are a shallow embedding of the transpiler core:

* the block scanner (src/parser.ts, class with parseAnnotations and
  validateAnnotation) over a line-oriented view of strings,
* the forward emitter (transformer, class AnnotationTransformer),
* the reverse matcher (reverse-transformer, class ReverseTransformer),
* the per-file success/error combination logic (transpiler processFile
  together with file-handler writeTransformedFile).

JavaScript strings are modelled as Lean String values; all character-level
work is done on String.data (a list of Char).  JS Set objects are modelled
as insertion-ordered duplicate-free lists.  Regular-expression matching is
translated into explicit character scanners following the backtracking
semantics of each concrete regex used by the source.
-/

/-! Character and string utilities mirroring the JavaScript primitives. -/

/-- Whitespace class of JavaScript regular expressions (the characters that
that can actually occur in the inputs of the transpiler). -/
def isJsWs (c : Char) : Bool :=
  c = ' ' || c = '\t' || c = '\n' || c = '\r' || c = '\x0b' || c = '\x0c'

/-- Word-character class of JavaScript (ASCII letters, digits, underscore). -/
def isWordChar (c : Char) : Bool :=
  (c ≥ 'a' && c ≤ 'z') || (c ≥ 'A' && c ≤ 'Z') || (c ≥ '0' && c ≤ '9') || c = '_'

/-- Character class of an annotation type name: the regex class a-zA-Z plus
the hyphen. -/
def isTypeChar (c : Char) : Bool :=
  (c ≥ 'a' && c ≤ 'z') || (c ≥ 'A' && c ≤ 'Z') || c = '-'

/-- Length of the maximal prefix whose characters satisfy the predicate. -/
def countLeading (p : Char → Bool) : List Char → Nat
  | [] => 0
  | c :: cs => if p c then countLeading p cs + 1 else 0

/-- Trim of a character list at both ends, mirroring String.prototype.trim. -/
def trimChars (l : List Char) : List Char :=
  ((l.dropWhile isJsWs).reverse.dropWhile isJsWs).reverse

/-- JavaScript String.prototype.trim. -/
def jsTrim (s : String) : String := String.mk (trimChars s.data)

/-- Split of a character list at every occurrence of the separator
character; mirrors JavaScript String.prototype.split with a one-character
separator (an empty input yields one empty piece, a trailing separator
yields a trailing empty piece). -/
def splitOnCharFn (sep : Char) : List Char → List (List Char)
  | [] => [[]]
  | c :: cs =>
    match splitOnCharFn sep cs with
    | [] => [[]]
    | h :: t => if c = sep then [] :: h :: t else (c :: h) :: t

/-- JavaScript s.split(sep) for a one-character separator. -/
def jsSplit (sep : Char) (s : String) : List String :=
  (splitOnCharFn sep s.data).map String.mk

/-- The line view used throughout the source: content.split("\n"). -/
def splitLines (s : String) : List String := jsSplit '\n' s

/-- Join of character lists with a separator; mirrors Array.prototype.join. -/
def joinSep (sep : List Char) : List (List Char) → List Char
  | [] => []
  | [l] => l
  | l :: ls => l ++ sep ++ joinSep sep ls

/-- JavaScript parts.join(sep). -/
def jsJoin (sep : String) (parts : List String) : String :=
  String.mk (joinSep sep.data (parts.map String.data))

/-- JavaScript lines.join("\n"). -/
def joinLines (ls : List String) : String := jsJoin "\n" ls

/-- Earliest occurrence of the literal pattern inside a character list:
returns the part before the occurrence and the part after it. -/
def splitFirst (pat : List Char) : List Char → Option (List Char × List Char)
  | [] => if pat = [] then some ([], []) else none
  | c :: cs =>
    if pat.isPrefixOf (c :: cs) then some ([], (c :: cs).drop pat.length)
    else
      match splitFirst pat cs with
      | some (b, a) => some (c :: b, a)
      | none => none

/-- JavaScript template.replace(pat, repl) with a plain-string pattern:
only the first occurrence is replaced (dollar sequences of the replacement
string are not modelled; no caller of this model uses them). -/
def replaceFirst (s : String) (pat : String) (repl : String) : String :=
  match splitFirst pat.data s.data with
  | some (b, a) => String.mk (b ++ repl.data ++ a)
  | none => s

/-- Last character test used for directory detection: name.endsWith("/"). -/
def endsWithSlash (s : String) : Bool :=
  match s.data.getLast? with
  | some c => c = '/'
  | none => false

/-- Strip of one trailing slash, mirroring the slash-anchored one-shot
replace the source applies to directory names. -/
def stripTrailingSlash (s : String) : String :=
  if endsWithSlash s then String.mk s.data.dropLast else s

/-! Data model, following src/types.ts. -/

/-- Error severity; the source stores the strings "warning" and "error" in
the field named type of TransformError. -/
inductive ErrKind where
  | warning
  | error
deriving DecidableEq

/-- TransformError of src/types.ts.  The source names the severity field
type and the optional annotation-type field annotation; they are named kind
and annotationType here (the latter following the data model of the
specification) because of Lean naming constraints. -/
structure TransformError where
  message : String
  line : Nat
  kind : ErrKind
  annotationType : Option String := none
deriving DecidableEq

/-- AnnotationBlock of src/types.ts; attributes is a JS object modelled as
a duplicate-free association list in insertion order. -/
structure AnnotationBlock where
  type : String
  content : String
  attributes : List (String × String)
  startLine : Nat
  endLine : Nat
  originalText : String
deriving DecidableEq

/-- TransformResult of src/types.ts; imports is a JS Set modelled as an
insertion-ordered duplicate-free list. -/
structure TransformResult where
  content : String
  imports : List String
  errors : List TransformError
deriving DecidableEq

/-- TranspilerConfig of src/types.ts (the fields the core reads). -/
structure TranspilerConfig where
  componentMappings : List (String × String)
  preserveOriginal : Bool
  outputExtension : String
  imports : List String
  backupOriginal : Bool
  validateSyntax : Bool
  addTitle : Bool

/-- FileProcessingResult of src/types.ts. -/
structure FileProcessingResult where
  inputPath : String
  outputPath : String
  success : Bool
  errors : List TransformError
deriving DecidableEq

/-- TabItem / StepItem / AccordionItem all carry a title and a content. -/
structure TabItem where
  title : String
  content : String
deriving DecidableEq

structure StepItem where
  title : String
  content : String
deriving DecidableEq

structure AccordionItem where
  title : String
  content : String
deriving DecidableEq

/-- FileTreeNode of src/types.ts.  The level field stores twice the value
computed by the source (the source divides the leading-whitespace count by
2, which in JavaScript may be fractional; the doubled value is an exact
natural number and the scaling preserves every comparison the algorithm
performs). -/
inductive FileTreeNode where
  | mk (name : String) (children : Option (List FileTreeNode)) (isFile : Bool) (level : Nat)

def FileTreeNode.name : FileTreeNode → String
  | .mk n _ _ _ => n

def FileTreeNode.children : FileTreeNode → Option (List FileTreeNode)
  | .mk _ c _ _ => c

def FileTreeNode.isFile : FileTreeNode → Bool
  | .mk _ _ f _ => f

/-! Block scanner, following src/parser.ts. -/

/-- Match of the opening-marker regex of the scanner,
colon colon colon, then one or more whitespace characters, then a name of
letters and hyphens, then optionally whitespace followed by a lazily
matched non-empty remainder anchored at the end of the line.  Returns the
captured type name and the optional attribute remainder.

Backtracking notes, mirrored faithfully: the whitespace before the type
name is mandatory (the source regex uses one-or-more, not zero-or-more);
when the remainder after the type name consists of w whitespace characters
only, the optional group still matches when w is at least 2, capturing the
final whitespace character (the greedy whitespace run backtracks by one so
that the lazy dot-plus can consume a single character and reach the
anchor). -/
def matchOpenChars : List Char → Option (String × Option String)
  | ':' :: ':' :: ':' :: rest =>
    let w1 := countLeading isJsWs rest
    if w1 = 0 then none
    else
      let r1 := rest.drop w1
      let tn := countLeading isTypeChar r1
      if tn = 0 then none
      else
        let ty := String.mk (r1.take tn)
        let r2 := r1.drop tn
        match r2 with
        | [] => some (ty, none)
        | c :: _ =>
          if ¬ isJsWs c then none
          else
            let w2 := countLeading isJsWs r2
            let attrs := r2.drop w2
            if attrs ≠ [] then some (ty, some (String.mk attrs))
            else if w2 ≥ 2 then some (ty, some (String.mk (r2.drop (w2 - 1))))
            else none
  | _ => none

/-- Opening-marker match on a line string. -/
def matchOpenMarker (line : String) : Option (String × Option String) :=
  matchOpenChars line.data

/-- One match attempt of the attribute regex at the current position:
a word run, an equals sign, then either a quoted value or a run of
non-whitespace characters.  Backtracking inside the word run is vacuous
because the equals sign is not a word character.  When a quote opens but
never closes, the alternation falls back to the non-whitespace branch
starting at the quote character, as the regex engine does.  An empty
quoted value is recorded as the empty string (the source then stores a JS
undefined through the quoted-or-unquoted fallback; no consumer
distinguishes the two). -/
def attemptAttr (l : List Char) : Option ((String × String) × List Char) :=
  let run := countLeading isWordChar l
  if run = 0 then none
  else
    match l.drop run with
    | '=' :: rest =>
      let key := String.mk (l.take run)
      match rest with
      | '"' :: vrest =>
        match splitFirst ['"'] vrest with
        | some (v, after) => some ((key, String.mk v), after)
        | none =>
          let vn := countLeading (fun c => ¬ isJsWs c) rest
          some ((key, String.mk (rest.take vn)), rest.drop vn)
      | _ =>
        let vn := countLeading (fun c => ¬ isJsWs c) rest
        if vn = 0 then none else some ((key, String.mk (rest.take vn)), rest.drop vn)
    | _ => none

/-- Global scan of the attribute regex: at each position try a match, on
success continue after the match, otherwise advance one character.  The
fuel is an upper bound on the number of scanning steps; callers pass the
input length plus one, which always suffices. -/
def scanAttrs : Nat → List Char → List (String × String)
  | 0, _ => []
  | _, [] => []
  | fuel + 1, c :: cs =>
    match attemptAttr (c :: cs) with
    | some (kv, rest) => kv :: scanAttrs fuel rest
    | none => scanAttrs fuel cs

/-- Assignment into a JS object: the first occurrence fixes the position,
the last occurrence fixes the value. -/
def upsertAttr : List (String × String) → String × String → List (String × String)
  | [], kv => [kv]
  | (k0, v0) :: rest, (k, v) =>
    if k0 = k then (k0, v) :: rest else (k0, v0) :: upsertAttr rest (k, v)

/-- Attribute parser of the scanner (parseAttributes of src/parser.ts). -/
def parseAttributes (attributesStr : String) : List (String × String) :=
  if jsTrim attributesStr = "" then []
  else (scanAttrs (attributesStr.data.length + 1) attributesStr.data).foldl upsertAttr []

/-- Value lookup in a parsed attribute object. -/
def getAttr (attrs : List (String × String)) (k : String) : Option String :=
  attrs.lookup k

/-- The currently open block tracked by the scanner. -/
structure OpenBlock where
  type : String
  attributes : List (String × String)
  startLine : Nat
  originalText : String
deriving DecidableEq

/-- Scanner state: emitted blocks, emitted errors, the open block when one
exists, and the content lines collected for it. -/
structure ScanState where
  blocks : List AnnotationBlock
  errors : List TransformError
  current : Option OpenBlock
  blockContent : List String
deriving DecidableEq

/-- Message of an unclosed-block error. -/
def unclosedMsg (cb : OpenBlock) : String :=
  "Unclosed annotation block \x27" ++ cb.type ++ "\x27 started at line " ++ toString cb.startLine

/-- One iteration of the scanner loop on the pair of the 1-based line
number and the line.  Order of checks as in the source: opening marker
first, then the exact closing marker, then content collection. -/
def scanStep (st : ScanState) (nl : Nat × String) : ScanState :=
  let n := nl.1
  let line := nl.2
  match matchOpenMarker line with
  | some (ty, attrsStr) =>
    let errs :=
      match st.current with
      | some cb => st.errors ++ [⟨unclosedMsg cb, n, .error, some cb.type⟩]
      | none => st.errors
    { blocks := st.blocks, errors := errs,
      current := some ⟨ty, parseAttributes (attrsStr.getD ""), n, line⟩,
      blockContent := [] }
  | none =>
    if line = ":::" then
      match st.current with
      | none =>
        { st with errors := st.errors ++
            [⟨"Found closing annotation without opening block", n, .error, none⟩] }
      | some cb =>
        let contentS := joinLines st.blockContent
        let block : AnnotationBlock :=
          ⟨cb.type, contentS, cb.attributes, cb.startLine, n,
            cb.originalText ++ "\n" ++ contentS ++ "\n" ++ line⟩
        { blocks := st.blocks ++ [block], errors := st.errors,
          current := none, blockContent := [] }
    else
      match st.current with
      | some _ => { st with blockContent := st.blockContent ++ [line] }
      | none => st

/-- End-of-input check of the scanner: an open block yields one final
unclosed-block error carrying the start line of that block. -/
def finalizeScan (st : ScanState) : ScanState :=
  match st.current with
  | some cb =>
    { st with errors := st.errors ++ [⟨unclosedMsg cb, cb.startLine, .error, some cb.type⟩] }
  | none => st

/-- Numbering of lines from 1, as the scanner loop does. -/
def enumFrom (n : Nat) : List String → List (Nat × String)
  | [] => []
  | x :: xs => (n, x) :: enumFrom (n + 1) xs

/-- parseAnnotations of src/parser.ts: scan all lines, then the
end-of-input check; returns the blocks and the structural errors. -/
def parseAnnotations (content : String) : List AnnotationBlock × List TransformError :=
  let st := (enumFrom 1 (splitLines content)).foldl scanStep ⟨[], [], none, []⟩
  let st2 := finalizeScan st
  (st2.blocks, st2.errors)

/-- Lines of a block content that survive the truthiness filter
line.trim() of the source. -/
def contentLines (content : String) : List String :=
  (splitLines content).filter (fun l => ¬ jsTrim l = "")

/-- validateTabsContent of src/parser.ts. -/
def validateTabsContent (content : String) : Bool :=
  let lines := contentLines content
  decide (lines ≠ []) && lines.all (fun l => l.data.contains '|')

/-- Prefix test Step whitespace digits colon, case-insensitive, of
validateStepsContent. -/
def stepValidPrefix (l : List Char) : Bool :=
  match l with
  | a :: b :: c :: d :: rest =>
    a.toLower = 's' && b.toLower = 't' && c.toLower = 'e' && d.toLower = 'p' &&
    (let w := countLeading isJsWs rest
     w ≥ 1 &&
     (let r := rest.drop w
      let dn := countLeading Char.isDigit r
      dn ≥ 1 &&
      match r.drop dn with
      | ':' :: _ => true
      | _ => false))
  | _ => false

/-- validateStepsContent of src/parser.ts. -/
def validateStepsContent (content : String) : Bool :=
  let lines := contentLines content
  decide (lines ≠ []) && lines.all (fun l => stepValidPrefix (jsTrim l).data)

/-- validateAccordionContent of src/parser.ts. -/
def validateAccordionContent (content : String) : Bool :=
  let lines := contentLines content
  decide (lines ≠ []) && lines.all (fun l => l.data.contains '|')

/-- Truthiness of an attribute value: present and non-empty. -/
def truthyAttr (attrs : List (String × String)) (k : String) : Bool :=
  match getAttr attrs k with
  | some v => ¬ v = ""
  | none => false

/-- validateAnnotation of src/parser.ts (named validateAnnotationBlock
here because of Lean naming constraints). -/
def validateAnnotationBlock (block : AnnotationBlock) : List TransformError :=
  match block.type with
  | "callout-info" | "callout-warn" | "callout-error" | "callout-note" =>
    if jsTrim block.content = "" then
      [⟨"Callout annotation \x27" ++ block.type ++ "\x27 has empty content",
        block.startLine, .warning, some block.type⟩]
    else []
  | "tabs" =>
    if ¬ validateTabsContent block.content then
      [⟨"Tabs annotation must have content in format \"Title|Content\"",
        block.startLine, .error, some block.type⟩]
    else []
  | "steps" =>
    if ¬ validateStepsContent block.content then
      [⟨"Steps annotation must have content in format \"Step N: Description\"",
        block.startLine, .error, some block.type⟩]
    else []
  | "accordion" =>
    if ¬ validateAccordionContent block.content then
      [⟨"Accordion annotation must have content in format \"Question|Answer\"",
        block.startLine, .error, some block.type⟩]
    else []
  | "code-block" =>
    if ¬ truthyAttr block.attributes "lang" then
      [⟨"Code block annotation requires \"lang\" attribute",
        block.startLine, .warning, some block.type⟩]
    else []
  | "files" =>
    if jsTrim block.content = "" then
      [⟨"Files annotation has empty content", block.startLine, .warning, some block.type⟩]
    else []
  | "banner" =>
    if ¬ truthyAttr block.attributes "type" then
      [⟨"Banner annotation requires \"type\" attribute",
        block.startLine, .warning, some block.type⟩]
    else []
  | _ =>
    [⟨"Unknown annotation type \x27" ++ block.type ++ "\x27",
      block.startLine, .warning, some block.type⟩]

/-! Forward emitter, following the transformer (class AnnotationTransformer). -/

/-- Import declarations registered by the emitters (brace and apostrophe
characters written as hex escapes; the string values equal those of the
source). -/
def calloutImportDecl : String :=
  "import \x7b Callout \x7d from \x27fumadocs-ui/components/callout\x27;"

def tabsImportDecl : String :=
  "import \x7b Tabs, Tab \x7d from \x27fumadocs-ui/components/tabs\x27;"

def stepsImportDecl : String :=
  "import \x7b Steps, Step \x7d from \x27fumadocs-ui/components/steps\x27;"

def accordionImportDecl : String :=
  "import \x7b Accordions, Accordion \x7d from \x27fumadocs-ui/components/accordion\x27;"

def codeBlockImportDecl : String :=
  "import \x7b CodeBlock \x7d from \x27fumadocs-ui/components/codeblock\x27;"

def filesImportDecl : String :=
  "import \x7b Files, File \x7d from \x27fumadocs-ui/components/files\x27;"

def bannerImportDecl : String :=
  "import \x7b Banner \x7d from \x27fumadocs-ui/components/banner\x27;"

/-- parseTabsContent of the transformer: one item per non-blank line, the
part before the first pipe trimmed as the title, the rest re-joined with
pipes and trimmed as the content. -/
def parseTabsContent (content : String) : List TabItem :=
  (contentLines content).map fun line =>
    match jsSplit '|' line with
    | [] => ⟨"", ""⟩
    | t :: rest => ⟨jsTrim t, jsTrim (jsJoin "|" rest)⟩

/-- Match of the steps-line regex: Step, whitespace, digits, colon,
optional whitespace, then a non-empty remainder anchored at the end; the
match is case-insensitive on the word Step.  When the remainder after the
colon is w whitespace characters only, the greedy whitespace run
backtracks by one so the final whitespace character is captured (w at
least 1). -/
def matchStepLine (l : List Char) : Option (String × String) :=
  match l with
  | a :: b :: c :: d :: rest =>
    if a.toLower = 's' && b.toLower = 't' && c.toLower = 'e' && d.toLower = 'p' then
      let w := countLeading isJsWs rest
      if w = 0 then none
      else
        let r := rest.drop w
        let dn := countLeading Char.isDigit r
        if dn = 0 then none
        else
          match r.drop dn with
          | ':' :: after =>
            let w2 := countLeading isJsWs after
            let r2 := after.drop w2
            if r2 ≠ [] then some (String.mk (r.take dn), String.mk r2)
            else if w2 ≥ 1 then some (String.mk (r.take dn), String.mk (after.drop (w2 - 1)))
            else none
          | _ => none
    else none
  | _ => none

/-- parseStepsContent of the transformer: matching lines yield Step N
titles, non-matching lines fall back to the title Step with the trimmed
line as content. -/
def parseStepsContent (content : String) : List StepItem :=
  (contentLines content).map fun line =>
    match matchStepLine line.data with
    | some (num, rest) => ⟨"Step " ++ num, jsTrim (String.mk rest.data)⟩
    | none => ⟨"Step", jsTrim line⟩

/-- parseAccordionContent of the transformer (same shape as tabs). -/
def parseAccordionContent (content : String) : List AccordionItem :=
  (contentLines content).map fun line =>
    match jsSplit '|' line with
    | [] => ⟨"", ""⟩
    | t :: rest => ⟨jsTrim t, jsTrim (jsJoin "|" rest)⟩

/-- Stack entry of the files parser: an open directory with the children
attached to it so far.  The source attaches children by mutating the node
already placed in its parent; this pure model accumulates the children in
the stack entry and attaches the finished node when the entry is popped,
which produces the same forests in the same order. -/
structure FStackEntry where
  name : String
  level : Nat
  acc : List FileTreeNode

/-- Directory node produced when a stack entry is closed. -/
def closeEntry (e : FStackEntry) : FileTreeNode :=
  .mk e.name (some e.acc) false e.level

/-- Attach of a finished node: to the children of the innermost open
directory, or to the root list when the stack is empty. -/
def attachNode (rs : List FileTreeNode) (stk : List FStackEntry) (n : FileTreeNode) :
    List FileTreeNode × List FStackEntry :=
  match stk with
  | [] => (rs ++ [n], [])
  | top :: rest => (rs, { top with acc := top.acc ++ [n] } :: rest)

/-- Cascade of the pop loop once one entry has been closed: the closed
node is appended to the children of the next entry, which is itself closed
and cascaded while its level is still at least the level of the new node. -/
def popAttach (rs : List FileTreeNode) (rest : List FStackEntry) (node : FileTreeNode)
    (lvl : Nat) : List FileTreeNode × List FStackEntry :=
  match rest with
  | [] => (rs ++ [node], [])
  | t2 :: r2 =>
    if t2.level ≥ lvl then popAttach rs r2 (closeEntry { t2 with acc := t2.acc ++ [node] }) lvl
    else (rs, { t2 with acc := t2.acc ++ [node] } :: r2)

/-- Pop of every stack entry whose level is at least the level of the new
node,
attaching each closed directory one level up (the stack head is the
innermost open directory). -/
def popGE (rs : List FileTreeNode) (stk : List FStackEntry) (lvl : Nat) :
    List FileTreeNode × List FStackEntry :=
  match stk with
  | [] => (rs, [])
  | top :: rest =>
    if top.level ≥ lvl then popAttach rs rest (closeEntry top) lvl
    else (rs, top :: rest)

/-- One line of the files parser: compute the (doubled) indentation level,
pop closed directories, then attach a file immediately or open a new
directory entry. -/
def filesLineStep (st : List FileTreeNode × List FStackEntry) (line : String) :
    List FileTreeNode × List FStackEntry :=
  let lvl := countLeading isJsWs line.data
  let name := jsTrim line
  let isFile := ¬ endsWithSlash name
  let p := popGE st.1 st.2 lvl
  if isFile then attachNode p.1 p.2 (.mk (stripTrailingSlash name) none true lvl)
  else (p.1, (⟨stripTrailingSlash name, lvl, []⟩ : FStackEntry) :: p.2)

/-- parseFilesContent of the transformer: fold the non-blank lines and
close whatever directories remain open. -/
def parseFilesContent (content : String) : List FileTreeNode :=
  let st := (contentLines content).foldl filesLineStep ([], [])
  (popGE st.1 st.2 0).1

mutual

/-- renderNode of the transformer renderFileTree: files self-close, while
directories re-append the trailing slash and wrap their children. -/
def renderNode : FileTreeNode → String
  | .mk name cs true _ =>
    let _ := cs
    "<File name=\"" ++ name ++ "\" />\n"
  | .mk name cs false _ =>
    "<File name=\"" ++ name ++ "/\">\n" ++
      (match cs with
       | some l => renderForest l
       | none => "") ++ "</File>\n"

/-- Concatenated rendering of a node list, as the loop of renderFileTree. -/
def renderForest : List FileTreeNode → String
  | [] => ""
  | n :: ns => renderNode n ++ renderForest ns

end

/-- transformCallout of the transformer: the wrapper markup and the import
declaration it registers. -/
def transformCallout (content : String) (ty : String) : String × List String :=
  ("<Callout type=\"" ++ ty ++ "\">\n" ++ content ++ "\n</Callout>", [calloutImportDecl])

/-- transformTabs of the transformer. -/
def transformTabs (content : String) : String × List String :=
  let tabs := parseTabsContent content
  let tabTitles := jsJoin ", " (tabs.map fun t => "\"" ++ t.title ++ "\"")
  let body := tabs.foldl
    (fun acc t => acc ++ "<Tab value=\"" ++ t.title ++ "\">\n" ++ t.content ++ "\n</Tab>\n") ""
  ("<Tabs items=\x7b[" ++ tabTitles ++ "]\x7d>\n" ++ body ++ "</Tabs>", [tabsImportDecl])

/-- transformSteps of the transformer. -/
def transformSteps (content : String) : String × List String :=
  let steps := parseStepsContent content
  let body := steps.foldl
    (fun acc s => acc ++ "<Step>\n" ++ "## " ++ s.title ++ "\n" ++ s.content ++ "\n" ++ "</Step>\n") ""
  ("<Steps>\n" ++ body ++ "</Steps>", [stepsImportDecl])

/-- transformAccordion of the transformer. -/
def transformAccordion (content : String) : String × List String :=
  let items := parseAccordionContent content
  let body := items.foldl
    (fun acc i => acc ++ "<Accordion title=\"" ++ i.title ++ "\">\n" ++ i.content ++ "\n</Accordion>\n") ""
  ("<Accordions type=\"single\">\n" ++ body ++ "</Accordions>", [accordionImportDecl])

/-- transformCodeBlock of the transformer; lang falls back to text and the
title attribute is emitted only when truthy, mirroring the JS
truthiness-based defaults. -/
def transformCodeBlock (content : String) (attributes : List (String × String)) :
    String × List String :=
  let lang :=
    match getAttr attributes "lang" with
    | some v => if v = "" then "text" else v
    | none => "text"
  let titlePart :=
    match getAttr attributes "title" with
    | some v => if v = "" then "" else " title=\"" ++ v ++ "\""
    | none => ""
  ("<CodeBlock lang=\"" ++ lang ++ "\"" ++ titlePart ++ ">\n" ++
     "\x60\x60\x60" ++ lang ++ "\n" ++ content ++ "\n\x60\x60\x60" ++ "\n</CodeBlock>",
   [codeBlockImportDecl])

/-- transformFiles of the transformer. -/
def transformFiles (content : String) : String × List String :=
  ("<Files>\n" ++ renderForest (parseFilesContent content) ++ "</Files>", [filesImportDecl])

/-- transformBanner of the transformer. -/
def transformBanner (content : String) (attributes : List (String × String)) :
    String × List String :=
  let ty :=
    match getAttr attributes "type" with
    | some v => if v = "" then "info" else v
    | none => "info"
  ("<Banner type=\"" ++ ty ++ "\">\n" ++ content ++ "\n</Banner>", [bannerImportDecl])

/-- transformCustomComponent of the transformer: a single placeholder
substitution into the configured template; no import is registered. -/
def transformCustomComponent (content : String) (template : String) : String × List String :=
  (replaceFirst template "\x7b\x7bcontent\x7d\x7d" content, [])

/-- transformBlock of the transformer: dispatch by block type; unknown
types consult the custom component mappings (through JS truthiness, so an
empty template does not count) and otherwise throw, modelled as the error
branch carrying the thrown message. -/
def transformBlock (cfg : TranspilerConfig) (block : AnnotationBlock) :
    Except String (String × List String) :=
  match block.type with
  | "callout-info" => .ok (transformCallout block.content "info")
  | "callout-warn" => .ok (transformCallout block.content "warn")
  | "callout-error" => .ok (transformCallout block.content "error")
  | "callout-note" => .ok (transformCallout block.content "note")
  | "tabs" => .ok (transformTabs block.content)
  | "steps" => .ok (transformSteps block.content)
  | "accordion" => .ok (transformAccordion block.content)
  | "code-block" => .ok (transformCodeBlock block.content block.attributes)
  | "files" => .ok (transformFiles block.content)
  | "banner" => .ok (transformBanner block.content block.attributes)
  | _ =>
    match cfg.componentMappings.lookup block.type with
    | some template =>
      if template = "" then .error ("Unknown annotation type: " ++ block.type)
      else .ok (transformCustomComponent block.content template)
    | none => .error ("Unknown annotation type: " ++ block.type)

/-- replaceBlockInContent of the transformer: re-split the current text,
keep the lines before startLine, insert the replacement as a single unit,
keep the lines after endLine. -/
def replaceBlockInContent (content : String) (block : AnnotationBlock)
    (replacement : String) : String :=
  let lines := splitLines content
  let beforeLines := lines.take (block.startLine - 1)
  let afterLines := lines.drop block.endLine
  joinLines (beforeLines ++ [replacement] ++ afterLines)

/-- Stable insertion of a block into a list sorted by descending start
line; an element with an equal key goes after the existing ones, matching
the stable JS sort with the comparator on start lines. -/
def insertDesc (b : AnnotationBlock) : List AnnotationBlock → List AnnotationBlock
  | [] => [b]
  | x :: xs => if b.startLine > x.startLine then b :: x :: xs else x :: insertDesc b xs

/-- Copy-and-sort of the block list by descending start line. -/
def sortByStartDesc (l : List AnnotationBlock) : List AnnotationBlock :=
  l.foldl (fun acc b => insertDesc b acc) []

/-- Insertion into the used-imports set: a JS Set add. -/
def addImport (s : List String) (i : String) : List String :=
  if i ∈ s then s else s ++ [i]

/-- Set insertion of several declarations, in order. -/
def addImports (s : List String) (is : List String) : List String :=
  is.foldl addImport s

/-- One iteration of the transform loop: a successful emission replaces
the line span of the block and registers its imports; a thrown emission is
caught and recorded as one error naming the block, leaving content and
used imports untouched. -/
def transformStep (cfg : TranspilerConfig)
    (st : String × List String × List TransformError) (b : AnnotationBlock) :
    String × List String × List TransformError :=
  match transformBlock cfg b with
  | .ok (markup, imps) =>
    (replaceBlockInContent st.1 b markup, addImports st.2.1 imps, st.2.2)
  | .error msg =>
    (st.1, st.2.1,
     st.2.2 ++ [⟨"Failed to transform " ++ b.type ++ ": " ++ msg, b.startLine, .error, some b.type⟩])

/-- transformAnnotations of the transformer: clear the per-call import
accumulator, process the blocks in descending start-line order, and return
the content, the imports and the errors of this call. -/
def transformAnnotations (cfg : TranspilerConfig) (content : String)
    (blocks : List AnnotationBlock) : TransformResult :=
  let sorted := sortByStartDesc blocks
  let st := sorted.foldl (transformStep cfg) (content, [], [])
  ⟨st.1, st.2.1, st.2.2⟩

/-- Instance state of the transformer object: its usedImports field.  The
source stores the field itself into the result (imports gets the very Set
object held by the instance), so observing the imports of an earlier
result after a later call reads the current contents of the instance. -/
structure AnnotationTransformerState where
  usedImports : List String
deriving DecidableEq

/-- One call of transformAnnotations on a transformer instance: the call
clears and refills the shared usedImports field and the returned result
aliases that field.  The returned pair carries the content and errors of
the call;
errors; the imports of the returned result are read through the instance
state current at observation time. -/
def transformAnnotationsCall (cfg : TranspilerConfig)
    (inst : AnnotationTransformerState) (content : String)
    (blocks : List AnnotationBlock) :
    (String × List TransformError) × AnnotationTransformerState :=
  let _ := inst
  let r := transformAnnotations cfg content blocks
  ((r.content, r.errors), ⟨r.imports⟩)

/-- Dereference of the imports field of a result: the shared Set read through
the instance state at the time of observation. -/
def importsSeenVia (inst : AnnotationTransformerState) : List String :=
  inst.usedImports

/-! Reverse matcher, following the reverse-transformer
(class ReverseTransformer).  Each regex-driven global replace is
translated as a left-to-right scanner: at every position a match is
attempted following the backtracking semantics of the concrete regex, a
match is replaced and scanning resumes after it, otherwise one character
is copied.  The fuel arguments bound the number of scanning steps; every
caller passes the input length plus one, which always suffices. -/

/-- Prefix test on strings. -/
def startsWithStr (p s : String) : Bool := p.data.isPrefixOf s.data

/-- Substring test, JavaScript String.prototype.includes. -/
def containsSub (sub s : String) : Bool := (splitFirst sub.data s.data).isSome

/-- Line filter of removeImports: drop lines that are fumadocs-ui import
declarations together with the blank lines directly after them. -/
def removeImportsGo : Bool → List String → List String
  | _, [] => []
  | skip, line :: rest =>
    let t := jsTrim line
    if startsWithStr "import " t && containsSub "fumadocs-ui" t then
      removeImportsGo true rest
    else if skip && t = "" then removeImportsGo skip rest
    else if t = "" then line :: removeImportsGo skip rest
    else line :: removeImportsGo false rest

/-- removeImports of the reverse transformer. -/
def removeImports (content : String) : String :=
  joinLines (removeImportsGo false (splitLines content))

/-- Generic scanner for a global regex replace: the matcher returns the
replacement text and the rest of the input after the match. -/
def goReplace (m : List Char → Option (List Char × List Char)) :
    Nat → List Char → List Char
  | 0, l => l
  | _, [] => []
  | fuel + 1, c :: cs =>
    match m (c :: cs) with
    | some (rep, rest) => rep ++ goReplace m fuel rest
    | none => c :: goReplace m fuel cs

/-- Global regex replace over a string through a position matcher. -/
def jsReplaceAll (m : List Char → Option (List Char × List Char)) (s : String) : String :=
  String.mk (goReplace m (s.data.length + 1) s.data)

/-- Matched prefix of an input, recovered from the rest after the match;
used when a callback returns the match unchanged. -/
def matchedPart (l rest : List Char) : List Char :=
  l.take (l.length - rest.length)

/-- Match of a fenced-code title at the current position: three backticks,
a word run, a whitespace run, then a quoted title; used by
removeCodeBlockTitles.  Returns the language run and the rest. -/
def matchFenceTitleAt (l : List Char) : Option (List Char × List Char) :=
  if ("\x60\x60\x60").data.isPrefixOf l then
    let r0 := l.drop 3
    let run := countLeading isWordChar r0
    if run = 0 then none
    else
      let r1 := r0.drop run
      let w := countLeading isJsWs r1
      if w = 0 then none
      else
        let r2 := r1.drop w
        if ("title=\"").data.isPrefixOf r2 then
          match splitFirst ['"'] (r2.drop 7) with
          | some (_, r3) => some (r0.take run, r3)
          | none => none
        else none
  else none

/-- removeCodeBlockTitles of the reverse transformer: every fence title
match is replaced by the bare fence with its language. -/
def removeCodeBlockTitles (content : String) : String :=
  jsReplaceAll
    (fun l =>
      match matchFenceTitleAt l with
      | some (lang, rest) => some (("\x60\x60\x60").data ++ lang, rest)
      | none => none)
    content

/-- Shared shape of the wrapper-tag matchers: a literal tag opener, a
mandatory whitespace run, a mandatory quoted attribute introduced by the
given key, a skip to the closing angle bracket, then a lazily matched body
ending at the given closing literal.  Returns the attribute value, the
body and the rest. -/
def matchWrapperAt (opener : String) (key : String) (closer : String)
    (l : List Char) : Option (String × String × List Char) :=
  if opener.data.isPrefixOf l then
    let r0 := l.drop opener.data.length
    let w := countLeading isJsWs r0
    if w = 0 then none
    else
      let r1 := r0.drop w
      if (key ++ "=\"").data.isPrefixOf r1 then
        match splitFirst ['"'] (r1.drop (key.data.length + 2)) with
        | some (v, r2) =>
          if v = [] then none
          else
            match splitFirst ['>'] r2 with
            | some (_, r3) =>
              match splitFirst closer.data r3 with
              | some (inner, r4) => some (String.mk v, String.mk inner, r4)
              | none => none
            | none => none
        | none => none
      else none
  else none

/-- convertCallouts of the reverse transformer. -/
def convertCallouts (content : String) : String :=
  jsReplaceAll
    (fun l =>
      match matchWrapperAt "<Callout" "type" "</Callout>" l with
      | some (ty, inner, rest) =>
        some ((":::callout-" ++ ty ++ "\n" ++ jsTrim inner ++ "\n:::").data, rest)
      | none => none)
    content

/-- convertBanners of the reverse transformer. -/
def convertBanners (content : String) : String :=
  jsReplaceAll
    (fun l =>
      match matchWrapperAt "<Banner" "type" "</Banner>" l with
      | some (ty, inner, rest) =>
        some ((":::banner type=\"" ++ ty ++ "\"\n" ++ jsTrim inner ++ "\n:::").data, rest)
      | none => none)
    content

/-- Match of a container tag with no required attribute: the literal
opener, a skip to the closing angle bracket, then a lazily matched body
ending at the closing literal. -/
def matchContainerAt (opener : String) (closer : String) (l : List Char) :
    Option (String × List Char) :=
  if opener.data.isPrefixOf l then
    match splitFirst ['>'] (l.drop opener.data.length) with
    | some (_, r1) =>
      match splitFirst closer.data r1 with
      | some (inner, r2) => some (String.mk inner, r2)
      | none => none
    | none => none
  else none

/-- Collection of the child matches of a container, through a matcher that
returns one captured item and the rest. -/
def collectMatches {α : Type} (m : List Char → Option (α × List Char)) :
    Nat → List Char → List α
  | 0, _ => []
  | _, [] => []
  | fuel + 1, c :: cs =>
    match m (c :: cs) with
    | some (a, rest) => a :: collectMatches m fuel rest
    | none => collectMatches m fuel cs

/-- Child matcher of convertSteps: a Step tag whose body opens with a
level-2 heading; captures the heading text (the run before the next angle
bracket) and the rest of the body up to the closing tag. -/
def matchStepChildAt (l : List Char) : Option ((String × String) × List Char) :=
  if ("<Step").data.isPrefixOf l then
    match splitFirst ['>'] (l.drop 5) with
    | some (_, r1) =>
      if ("## ").data.isPrefixOf r1 then
        let r2 := r1.drop 3
        let tn := countLeading (fun c => ¬ c = '<') r2
        if tn = 0 then none
        else
          match splitFirst ("</Step>").data (r2.drop tn) with
          | some (body, r3) =>
            some ((jsTrim (String.mk (r2.take tn)), jsTrim (String.mk body)), r3)
          | none => none
      else none
    | none => none
  else none

/-- convertSteps of the reverse transformer. -/
def convertSteps (content : String) : String :=
  jsReplaceAll
    (fun l =>
      match matchContainerAt "<Steps" "</Steps>" l with
      | some (inner, rest) =>
        let steps := (collectMatches matchStepChildAt (inner.data.length + 1) inner.data).map
          (fun p => p.1 ++ (if p.2 = "" then "" else ": " ++ p.2))
        if steps ≠ [] then
          some ((":::steps\n" ++ jsJoin "\n" steps ++ "\n:::").data, rest)
        else some (matchedPart l rest, rest)
      | none => none)
    content

/-- Child matcher of convertAccordions: an Accordion tag with a mandatory
quoted title; captures the trimmed title and trimmed body. -/
def matchAccordionChildAt (l : List Char) : Option ((String × String) × List Char) :=
  if ("<Accordion").data.isPrefixOf l then
    let r0 := l.drop 10
    let w := countLeading isJsWs r0
    if w = 0 then none
    else
      let r1 := r0.drop w
      if ("title=\"").data.isPrefixOf r1 then
        match splitFirst ['"'] (r1.drop 7) with
        | some (v, r2) =>
          if v = [] then none
          else
            match splitFirst ['>'] r2 with
            | some (_, r3) =>
              match splitFirst ("</Accordion>").data r3 with
              | some (body, r4) =>
                some ((jsTrim (String.mk v), jsTrim (String.mk body)), r4)
              | none => none
            | none => none
        | none => none
      else none
  else none

/-- convertAccordions of the reverse transformer. -/
def convertAccordions (content : String) : String :=
  jsReplaceAll
    (fun l =>
      match matchContainerAt "<Accordions" "</Accordions>" l with
      | some (inner, rest) =>
        let items := (collectMatches matchAccordionChildAt (inner.data.length + 1) inner.data).map
          (fun p => p.1 ++ "|" ++ p.2)
        if items ≠ [] then
          some ((":::accordion\n" ++ jsJoin "\n" items ++ "\n:::").data, rest)
        else some (matchedPart l rest, rest)
      | none => none)
    content

/-- Lowercase view of a character list, for the case-insensitive tests. -/
def lowerChars (l : List Char) : List Char := l.map Char.toLower

def isAsciiLower (c : Char) : Bool := c ≥ 'a' && c ≤ 'z'

def isAsciiUpper (c : Char) : Bool := c ≥ 'A' && c ≤ 'Z'

def isAsciiLetter (c : Char) : Bool := isAsciiLower c || isAsciiUpper c

/-- Heading-word prefixes of the first heuristic pattern, lowercased. -/
def headingWordPrefixes : List String :=
  ["getting started", "installation", "usage", "example", "setup",
   "configuration", "api", "tutorial", "guide"]

/-- Numbered-section prefixes of the second heuristic pattern. -/
def numberedPrefixes : List String := ["step ", "chapter ", "section "]

/-- Suffix words of the fourth heuristic pattern, lowercased. -/
def headingSuffixWords : List String :=
  ["example", "usage", "guide", "tutorial", "setup", "installation"]

/-- Title-Case prefix test of the third heuristic pattern (case
sensitive): an uppercase letter, one or more lowercase letters, a space,
an uppercase letter, one or more lowercase letters. -/
def titleCasePrefixTest (l : List Char) : Bool :=
  match l with
  | c0 :: rest =>
    isAsciiUpper c0 &&
    (let r1 := countLeading isAsciiLower rest
     r1 ≥ 1 &&
     (match rest.drop r1 with
      | ' ' :: c2 :: rest2 => isAsciiUpper c2 && countLeading isAsciiLower rest2 ≥ 1
      | _ => false))
  | _ => false

/-- Word-then-suffix test of the fourth heuristic pattern; under the
case-insensitive flag its letter classes accept any letter, and it is
anchored at the end of the title. -/
def wordSuffixTest (l : List Char) : Bool :=
  match l with
  | c0 :: rest =>
    isAsciiLetter c0 &&
    (let r1 := countLeading isAsciiLetter rest
     r1 ≥ 1 &&
     (match rest.drop r1 with
      | ' ' :: after => headingSuffixWords.any (fun w => lowerChars after = w.data)
      | _ => false))
  | _ => false

/-- looksLikeHeadingTitle of the reverse transformer: the four heuristic
patterns, any of which classifies the title as heading-derived. -/
def looksLikeHeadingTitle (title : String) : Bool :=
  let low := lowerChars title.data
  headingWordPrefixes.any (fun w => w.data.isPrefixOf low) ||
  numberedPrefixes.any (fun w =>
    w.data.isPrefixOf low && countLeading Char.isDigit (low.drop w.data.length) ≥ 1) ||
  titleCasePrefixTest title.data ||
  wordSuffixTest title.data

/-- Match of the inner fenced-code pattern of convertCodeBlocks: a triple
backtick, a non-backtick run whose last newline closes the language part,
then a lazily matched code group ending at a newline followed by a triple
backtick.  The greedy non-backtick run backtracks to the last newline
before the first backtick; further backtracking cannot succeed because
every earlier candidate faces the same closing search. -/
def matchFenceBlockAt (l : List Char) : Option (List Char) :=
  if ("\x60\x60\x60").data.isPrefixOf l then
    let rest := l.drop 3
    let run := countLeading (fun c => ¬ c = '\x60') rest
    let seg := rest.take run
    match seg.reverse.findIdx? (fun c => c = '\n') with
    | some k =>
      let j := run - 1 - k
      match splitFirst ("\n\x60\x60\x60").data (rest.drop (j + 1)) with
      | some (code, _) => some code
      | none => none
    | none => none
  else none

/-- Search for the first inner fenced-code match inside a CodeBlock body. -/
def findCodeMatch : Nat → List Char → Option (List Char)
  | 0, _ => none
  | _, [] => none
  | fuel + 1, c :: cs =>
    match matchFenceBlockAt (c :: cs) with
    | some code => some code
    | none => findCodeMatch fuel cs

/-- Match of a CodeBlock tag at the current position: mandatory quoted
lang, optional quoted title, then the body up to the closing tag.  The
optional title group either matches completely (whitespace, the title
literal, a non-empty quoted value, optional whitespace, the closing angle
bracket) or the whole position fails, because after backtracking the
bare-bracket path immediately meets the letter t. -/
def matchCodeBlockAt (l : List Char) :
    Option ((String × Option String × String) × List Char) :=
  if ("<CodeBlock").data.isPrefixOf l then
    let r0 := l.drop 10
    let w := countLeading isJsWs r0
    if w = 0 then none
    else
      let r1 := r0.drop w
      if ("lang=\"").data.isPrefixOf r1 then
        match splitFirst ['"'] (r1.drop 6) with
        | some (lv, r2) =>
          if lv = [] then none
          else
            let w2 := countLeading isJsWs r2
            let afterWs := r2.drop w2
            if w2 ≥ 1 && ("title=\"").data.isPrefixOf afterWs then
              match splitFirst ['"'] (afterWs.drop 7) with
              | some (tv, r3) =>
                if tv = [] then none
                else
                  let w3 := countLeading isJsWs r3
                  match r3.drop w3 with
                  | '>' :: r4 =>
                    match splitFirst ("</CodeBlock>").data r4 with
                    | some (inner, r5) =>
                      some ((String.mk lv, some (String.mk tv), String.mk inner), r5)
                    | none => none
                  | _ => none
              | none => none
            else
              match afterWs with
              | '>' :: r4 =>
                match splitFirst ("</CodeBlock>").data r4 with
                | some (inner, r5) => some ((String.mk lv, none, String.mk inner), r5)
                | none => none
              | _ => none
        | none => none
      else none
  else none

/-- convertCodeBlocks of the reverse transformer, including the
heading-title heuristic. -/
def convertCodeBlocks (content : String) : String :=
  jsReplaceAll
    (fun l =>
      match matchCodeBlockAt l with
      | some ((lang, titleOpt, inner), rest) =>
        let code :=
          match findCodeMatch (inner.data.length + 1) inner.data with
          | some c => String.mk c
          | none => jsTrim inner
        let rep :=
          match titleOpt with
          | some title =>
            if looksLikeHeadingTitle title then
              "\x60\x60\x60" ++ lang ++ "\n" ++ code ++ "\n\x60\x60\x60"
            else
              ":::code-block lang=\"" ++ lang ++ "\"" ++ " title=\"" ++ title ++ "\"" ++
                "\n" ++ code ++ "\n:::"
          | none => ":::code-block lang=\"" ++ lang ++ "\"" ++ "\n" ++ code ++ "\n:::"
        some (rep.data, rest)
      | none => none)
    content

/-- Match of a File tag of parseFileStructure: mandatory quoted name, then
either a self-closing slash-bracket or a body up to the closing tag. -/
def matchFileAt (l : List Char) : Option ((String × Option (List Char)) × List Char) :=
  if ("<File").data.isPrefixOf l then
    let r0 := l.drop 5
    let w := countLeading isJsWs r0
    if w = 0 then none
    else
      let r1 := r0.drop w
      if ("name=\"").data.isPrefixOf r1 then
        match splitFirst ['"'] (r1.drop 6) with
        | some (v, r2) =>
          if v = [] then none
          else
            let w2 := countLeading isJsWs r2
            if ("/>").data.isPrefixOf (r2.drop w2) then
              some ((String.mk v, none), (r2.drop w2).drop 2)
            else
              match splitFirst ['>'] r2 with
              | some (_, r3) =>
                match splitFirst ("</File>").data r3 with
                | some (inner, r4) => some ((String.mk v, some inner), r4)
                | none => none
              | none => none
        | none => none
      else none
  else none

/-- Collection of the File matches of one nesting level. -/
def collectFileMatches : Nat → List Char → List (String × Option (List Char))
  | 0, _ => []
  | _, [] => []
  | fuel + 1, c :: cs =>
    match matchFileAt (c :: cs) with
    | some (m, rest) => m :: collectFileMatches fuel rest
    | none => collectFileMatches fuel cs

/-- parseFileStructure of the reverse transformer: each matched name on an
indented line, followed by the recursively rebuilt nested structure when
the body is non-blank.  The fuel bounds the nesting depth; the top-level
caller passes the content length plus one, and every nested body is a
strict substring of its parent. -/
def parseFileStructure : Nat → List Char → Nat → String
  | 0, _, _ => ""
  | fuel + 1, content, level =>
    let indent := String.mk (List.replicate (2 * level) ' ')
    let ms := collectFileMatches (content.length + 1) content
    let lines := ms.foldl
      (fun acc m =>
        let acc1 := acc ++ [indent ++ m.1]
        match m.2 with
        | some inner =>
          if ¬ jsTrim (String.mk inner) = "" then
            let nested := parseFileStructure fuel inner (level + 1)
            if ¬ nested = "" then acc1 ++ [nested] else acc1
          else acc1
        | none => acc1)
      []
    jsJoin "\n" lines

/-- convertFiles of the reverse transformer. -/
def convertFiles (content : String) : String :=
  jsReplaceAll
    (fun l =>
      match matchContainerAt "<Files" "</Files>" l with
      | some (inner, rest) =>
        some ((":::files\n" ++ parseFileStructure (inner.data.length + 1) inner.data 0 ++
          "\n:::").data, rest)
      | none => none)
    content

/-- Parser for the items array of convertTabs after the quote replacement:
a bracketed, comma-separated list of double-quoted strings (JSON escape
sequences are not modelled; the emitter of this system never produces
them).  A failure models a JSON.parse exception. -/
def parseJsonStringArrayGo : Nat → List Char → Option (List String × List Char)
  | 0, _ => none
  | fuel + 1, l =>
    let l1 := l.dropWhile isJsWs
    match l1 with
    | '"' :: r =>
      match splitFirst ['"'] r with
      | some (v, r2) =>
        let r3 := r2.dropWhile isJsWs
        match r3 with
        | ',' :: r4 =>
          match parseJsonStringArrayGo fuel r4 with
          | some (vs, r5) => some (String.mk v :: vs, r5)
          | none => none
        | ']' :: r4 => some ([String.mk v], r4)
        | _ => none
      | none => none
    | _ => none

/-- JSON.parse of a non-empty array of strings, as convertTabs needs. -/
def parseJsonStringArray (l : List Char) : Option (List String) :=
  match l.dropWhile isJsWs with
  | '[' :: r =>
    match parseJsonStringArrayGo (r.length + 1) r with
    | some (vs, r2) => if r2.dropWhile isJsWs = [] then some vs else none
    | none => none
  | _ => none

/-- Child matcher of convertTabs: a Tab tag with a mandatory quoted value;
captures the value and the trimmed body. -/
def matchTabChildAt (l : List Char) : Option ((String × String) × List Char) :=
  if ("<Tab").data.isPrefixOf l then
    let r0 := l.drop 4
    let w := countLeading isJsWs r0
    if w = 0 then none
    else
      let r1 := r0.drop w
      if ("value=\"").data.isPrefixOf r1 then
        match splitFirst ['"'] (r1.drop 7) with
        | some (v, r2) =>
          if v = [] then none
          else
            match splitFirst ['>'] r2 with
            | some (_, r3) =>
              match splitFirst ("</Tab>").data r3 with
              | some (body, r4) => some ((String.mk v, jsTrim (String.mk body)), r4)
              | none => none
            | none => none
        | none => none
      else none
  else none

/-- Match of a Tabs container: the literal opener, whitespace, the items
assignment holding a bracketed array, the closing brace, a skip to the
closing angle bracket, then the body up to the closing tag.  Captures the
bracketed array text and the body. -/
def matchTabsAt (l : List Char) : Option ((String × String) × List Char) :=
  if ("<Tabs").data.isPrefixOf l then
    let r0 := l.drop 5
    let w := countLeading isJsWs r0
    if w = 0 then none
    else
      let r1 := r0.drop w
      if ("items=\x7b[").data.isPrefixOf r1 then
        let r2 := r1.drop 7
        match splitFirst [']'] (r2.drop 1) with
        | some (itemsBody, r3) =>
          if itemsBody = [] then none
          else
            match r3 with
            | '\x7d' :: r4 =>
              match splitFirst ['>'] r4 with
              | some (_, r5) =>
                match splitFirst ("</Tabs>").data r5 with
                | some (inner, r6) =>
                  some ((String.mk ('[' :: itemsBody ++ [']']), String.mk inner), r6)
                | none => none
              | none => none
            | _ => none
        | none => none
      else none
  else none

/-- convertTabs of the reverse transformer: the items array is re-parsed
after replacing single quotes by double quotes, the Tab children are
collected into a value-indexed object, and the annotation lines are
rebuilt in items order, skipping values with no truthy body; a parse
failure returns the match unchanged. -/
def convertTabs (content : String) : String :=
  jsReplaceAll
    (fun l =>
      match matchTabsAt l with
      | some ((itemsArray, inner), rest) =>
        let normalized := itemsArray.data.map (fun c => if c = '\x27' then '"' else c)
        match parseJsonStringArray normalized with
        | some items =>
          let tabs := (collectMatches matchTabChildAt (inner.data.length + 1) inner.data).foldl
            upsertAttr []
          let body := items.foldl
            (fun acc item =>
              match tabs.lookup item with
              | some v => if v = "" then acc else acc ++ item ++ "|" ++ v ++ "\n"
              | none => acc)
            ""
          some ((":::tabs\n" ++ body ++ ":::").data, rest)
        | none => some (matchedPart l rest, rest)
      | none => none)
    content

/-- convertComponentsToAnnotations of the reverse transformer: the seven
passes in source order. -/
def convertComponentsToAnnotations (content : String) : String :=
  convertBanners (convertFiles (convertCodeBlocks (convertAccordions
    (convertSteps (convertTabs (convertCallouts content))))))

/-- Pipeline of reverseTransform before the exception handler: strip
the import lines, strip fence titles, convert components. -/
def reverseTransformPipeline (content : String) : String :=
  convertComponentsToAnnotations (removeCodeBlockTitles (removeImports content))

/-- Try and catch structure of reverseTransform: a successful pipeline run
returns its content with an empty import set and the errors collected so
far (none); a thrown exception returns the input content unchanged, an
empty set of imports and exactly one error of kind error. -/
def reverseTransformCore (outcome : Except String String) (content : String) :
    TransformResult :=
  match outcome with
  | .ok c => ⟨c, [], []⟩
  | .error msg =>
    ⟨content, [], [⟨"Reverse transformation error: " ++ msg, 0, .error, none⟩]⟩

/-- reverseTransform of the reverse transformer; in this model the
pipeline is a total function, so the run always reaches the success
branch. -/
def reverseTransform (content : String) : TransformResult :=
  reverseTransformCore (.ok (reverseTransformPipeline content)) content

/-! Per-file orchestration, following processFile of the transpiler
together with writeTransformedFile of src/file-handler.ts.  File input and
output are modelled at the boundary: the text of the file is given, and
the outcome of the write step is given as an optional caught-error message
(the
write path only touches the file system and the formatting helpers, so its
result is fully described by success or the caught message). -/

/-- Result of writeTransformedFile: success with no errors when the write
(or the dry run) goes through, otherwise failure with exactly one error of
kind error at line 0. -/
def writeTransformedFileResult (inputPath outputPath : String)
    (writeOutcome : Option String) : FileProcessingResult :=
  match writeOutcome with
  | none => ⟨inputPath, outputPath, true, []⟩
  | some m => ⟨inputPath, outputPath, false, [⟨"Failed to write file: " ++ m, 0, .error, none⟩]⟩

/-- Validation errors of a file: one validateAnnotation pass per scanned
block when validateSyntax is enabled. -/
def validationErrorsOf (cfg : TranspilerConfig) (blocks : List AnnotationBlock) :
    List TransformError :=
  if cfg.validateSyntax then blocks.foldl (fun acc b => acc ++ validateAnnotationBlock b) []
  else []

/-- processFile of the transpiler: scan, validate, transform, write, then
return the write result with the concatenation of all four error lists.
The success flag is the one produced by the write step. -/
def processFile (cfg : TranspilerConfig) (inputPath outputPath content : String)
    (writeOutcome : Option String) : FileProcessingResult :=
  let pr := parseAnnotations content
  let validationErrors := validationErrorsOf cfg pr.1
  let tr := transformAnnotations cfg content pr.1
  let writeResult := writeTransformedFileResult inputPath outputPath writeOutcome
  { writeResult with errors := pr.2 ++ validationErrors ++ tr.errors ++ writeResult.errors }

/-- Default configuration of the config manager (DEFAULT_CONFIG). -/
def defaultTranspilerConfig : TranspilerConfig where
  componentMappings :=
    [("callout-info", "<Callout type=\"info\">\x7b\x7bcontent\x7d\x7d</Callout>"),
     ("callout-warn", "<Callout type=\"warn\">\x7b\x7bcontent\x7d\x7d</Callout>"),
     ("callout-error", "<Callout type=\"error\">\x7b\x7bcontent\x7d\x7d</Callout>"),
     ("callout-note", "<Callout type=\"note\">\x7b\x7bcontent\x7d\x7d</Callout>")]
  preserveOriginal := false
  outputExtension := ".mdx"
  imports :=
    [calloutImportDecl, tabsImportDecl, stepsImportDecl, accordionImportDecl,
     codeBlockImportDecl, filesImportDecl, bannerImportDecl]
  backupOriginal := false
  validateSyntax := true
  addTitle := true

/-! Specification-side definitions used by the theorems below. -/

/-- Newline-freeness of a line. -/
def noNl (u : String) : Bool := ¬ u.data.contains '\n'

/-- Concatenated line views of a list of text units. -/
def flatSplit : List String → List String
  | [] => []
  | u :: M => splitLines u ++ flatSplit M

/-- Replacement of the 1-based inclusive line span s..e of a text by a
single unit; replaceBlockInContent is exactly this on the span of a
block. -/
def replaceSpan (content : String) (s e : Nat) (r : String) : String :=
  let lines := splitLines content
  joinLines (lines.take (s - 1) ++ [r] ++ lines.drop e)

/-- Sequential span replacement, in list order. -/
def foldReplace (content : String) : List (Nat × Nat × String) → String
  | [] => content
  | (s, e, r) :: rest => foldReplace (replaceSpan content s e r) rest

/-- Expected line decomposition after replacing the ascending spans: the
original lines outside every span, in order, with the replacement of each
span
as a single unit in source position. -/
def spliceAsc (M : List String) : Nat → List (Nat × Nat × String) → List String
  | i, [] => M.drop i
  | i, (s, e, r) :: rest => (M.take (s - 1)).drop i ++ [r] ++ spliceAsc M e rest

/-- Chained, non-overlapping spans: each span opens strictly after the
previous one closed, is well formed, and closes within the bound. -/
def chainSpecs : Nat → Nat → List (Nat × Nat × String) → Bool
  | _, _, [] => true
  | lo, hi, (s, e, _) :: rest =>
    decide (lo < s) && decide (s ≤ e) && decide (e ≤ hi) && chainSpecs e hi rest

/-- Chained, non-overlapping blocks (their line spans). -/
def chainBlocks : Nat → Nat → List AnnotationBlock → Bool
  | _, _, [] => true
  | lo, hi, b :: rest =>
    decide (lo < b.startLine) && decide (b.startLine ≤ b.endLine) &&
    decide (b.endLine ≤ hi) && chainBlocks b.endLine hi rest

/-- Emission success of a block under a configuration. -/
def transformOk (cfg : TranspilerConfig) (b : AnnotationBlock) : Bool :=
  match transformBlock cfg b with
  | .ok _ => true
  | .error _ => false

/-- Markup emitted for a block (empty for a failing block). -/
def markupOf (cfg : TranspilerConfig) (b : AnnotationBlock) : String :=
  match transformBlock cfg b with
  | .ok (m, _) => m
  | .error _ => ""

/-- Import declarations registered by the emission of a block. -/
def importsAddedBy (cfg : TranspilerConfig) (b : AnnotationBlock) : List String :=
  match transformBlock cfg b with
  | .ok (_, is) => is
  | .error _ => []

/-- Replacement spec of a block: its span and its emitted markup. -/
def specOf (cfg : TranspilerConfig) (b : AnnotationBlock) : Nat × Nat × String :=
  (b.startLine, b.endLine, markupOf cfg b)

/-- Replacement specs of the successfully emitted blocks, in list order. -/
def okSpecs (cfg : TranspilerConfig) (blocks : List AnnotationBlock) :
    List (Nat × Nat × String) :=
  blocks.filterMap fun b => if transformOk cfg b then some (specOf cfg b) else none

/-- Error recorded when the emission of a block throws. -/
def failErrorOf (cfg : TranspilerConfig) (b : AnnotationBlock) : TransformError :=
  ⟨"Failed to transform " ++ b.type ++ ": " ++
     (match transformBlock cfg b with
      | .error m => m
      | .ok _ => ""),
   b.startLine, .error, some b.type⟩

/-- Errors recorded by the transform loop, one per failing block, in
processing order. -/
def failErrors (cfg : TranspilerConfig) (blocks : List AnnotationBlock) :
    List TransformError :=
  blocks.filterMap fun b =>
    if transformOk cfg b then none else some (failErrorOf cfg b)

/-- Accumulated import fold, mirroring the imports component of the
transform loop. -/
def foldImports (cfg : TranspilerConfig) (imps : List String)
    (blocks : List AnnotationBlock) : List String :=
  blocks.foldl (fun acc b => addImports acc (importsAddedBy cfg b)) imps

/-- Count of error-kind entries in an error list. -/
def errorKindCount (errs : List TransformError) : Nat :=
  (errs.filter fun e => decide (e.kind = ErrKind.error)).length

/-- Membership of the four callout types. -/
def isCalloutType (ty : String) : Bool :=
  ty = "callout-info" || ty = "callout-warn" || ty = "callout-error" || ty = "callout-note"

/-- Well-formed file-tree node: a file carries no children array, a
directory always carries one (possibly empty), recursively. -/
inductive WfNode : FileTreeNode → Prop where
  | file : ∀ name lvl, WfNode (.mk name none true lvl)
  | dir : ∀ name cs lvl, (∀ c ∈ cs, WfNode c) → WfNode (.mk name (some cs) false lvl)

/-! Concrete inputs used by the witnesses below. -/

def c4input : String := "A\n::: callout-info\nHi\n:::\nB\n::: callout-warn\nYo\n:::\nC"

def c4blockA : AnnotationBlock :=
  ⟨"callout-info", "Hi", [], 2, 4, "::: callout-info\nHi\n:::"⟩

def c4blockB : AnnotationBlock :=
  ⟨"callout-warn", "Yo", [], 6, 8, "::: callout-warn\nYo\n:::"⟩

def c6input : String := "::: mystery\nX\n:::\n::: callout-info\nHi\n:::"

def c6blockU : AnnotationBlock := ⟨"mystery", "X", [], 1, 3, "::: mystery\nX\n:::"⟩

def c6blockK : AnnotationBlock :=
  ⟨"callout-info", "Hi", [], 4, 6, "::: callout-info\nHi\n:::"⟩

def c8input : String :=
  "::: callout-info\nA\n:::\n::: callout-warn\nB\n:::\n::: callout-note\nC\n:::"

def c8block1 : AnnotationBlock := ⟨"callout-info", "A", [], 1, 3, "::: callout-info\nA\n:::"⟩

def c8block2 : AnnotationBlock := ⟨"callout-warn", "B", [], 4, 6, "::: callout-warn\nB\n:::"⟩

def c8block3 : AnnotationBlock := ⟨"callout-note", "C", [], 7, 9, "::: callout-note\nC\n:::"⟩

def c8blockSteps : AnnotationBlock :=
  ⟨"steps", "step 1: Install deps", [], 4, 6, "::: steps\nstep 1: Install deps\n:::"⟩

def c8blockX : AnnotationBlock := ⟨"mystery", "X", [], 10, 12, "::: mystery\nX\n:::"⟩

/-- Character predicate of the plain single-line callout contents covered
by the round-trip theorem: no angle-opening bracket, no backtick, no
newline. -/
def plainChar (ch : Char) : Bool :=
  ¬ ch = '<' && ¬ ch = '\x60' && ¬ ch = '\n'

/-! Character-level split and join lemmas. -/

theorem splitOnCharFn_ne_nil (sep : Char) (l : List Char) : splitOnCharFn sep l ≠ [] := by
  induction l with
  | nil => simp [splitOnCharFn]
  | cons c cs ih =>
    rw [splitOnCharFn]
    cases h : splitOnCharFn sep cs with
    | nil => simp
    | cons hd tl => by_cases hc : c = sep <;> simp [hc]

theorem splitOnCharFn_append (sep : Char) (a b : List Char) :
    splitOnCharFn sep (a ++ sep :: b) = splitOnCharFn sep a ++ splitOnCharFn sep b := by
  induction a with
  | nil =>
    cases h : splitOnCharFn sep b with
    | nil => exact absurd h (splitOnCharFn_ne_nil sep b)
    | cons hd tl =>
      simp only [List.nil_append, splitOnCharFn, h]
      simp
  | cons c a' ih =>
    cases h : splitOnCharFn sep a' with
    | nil => exact absurd h (splitOnCharFn_ne_nil sep a')
    | cons hd tl =>
      simp only [List.cons_append, splitOnCharFn, List.append_eq, ih, h]
      by_cases hc : c = sep <;> simp [hc]

theorem joinSep_splitOnCharFn (sep : Char) (l : List Char) :
    joinSep [sep] (splitOnCharFn sep l) = l := by
  induction l with
  | nil => simp [splitOnCharFn, joinSep]
  | cons c cs ih =>
    rw [splitOnCharFn]
    cases h : splitOnCharFn sep cs with
    | nil => exact absurd h (splitOnCharFn_ne_nil sep cs)
    | cons hd tl =>
      rw [h] at ih
      by_cases hc : c = sep
      · subst hc
        simpa [joinSep] using ih
      · simp only [hc, if_false]
        cases tl with
        | nil => simpa [joinSep] using ih
        | cons x tx => simpa [joinSep] using ih

theorem joinSep_cons_cons (s a b : List Char) (l : List (List Char)) :
    joinSep s (a :: b :: l) = a ++ s ++ joinSep s (b :: l) := rfl

theorem not_contains_of_mem_splitOnCharFn (sep : Char) (l : List Char) :
    ∀ p ∈ splitOnCharFn sep l, p.contains sep = false := by
  induction l with
  | nil =>
    intro p hp
    simp [splitOnCharFn] at hp
    simp [hp, List.contains]
  | cons c cs ih =>
    intro p hp
    rw [splitOnCharFn] at hp
    cases h : splitOnCharFn sep cs with
    | nil => exact absurd h (splitOnCharFn_ne_nil sep cs)
    | cons hd tl =>
      rw [h] at hp
      have ihhd : hd.contains sep = false := ih hd (by rw [h]; exact List.mem_cons_self hd tl)
      have ihtl : ∀ q ∈ tl, q.contains sep = false := fun q hq =>
        ih q (by rw [h]; exact List.mem_cons_of_mem hd hq)
      by_cases hc : c = sep
      · simp [hc] at hp
        rcases hp with hp | hp | hp
        · simp [hp, List.contains]
        · subst hp; exact ihhd
        · exact ihtl p hp
      · simp [hc] at hp
        rcases hp with hp | hp
        · subst hp
          simp [List.contains] at ihhd ⊢
          exact ⟨fun he => hc he.symm, ihhd⟩
        · exact ihtl p hp

theorem splitOnCharFn_of_not_mem (sep : Char) (l : List Char) (h : sep ∉ l) :
    splitOnCharFn sep l = [l] := by
  induction l with
  | nil => simp [splitOnCharFn]
  | cons c cs ih =>
    have hc : ¬ c = sep := fun he => h (he ▸ List.mem_cons_self c cs)
    have hcs : sep ∉ cs := fun hm => h (List.mem_cons_of_mem c hm)
    rw [splitOnCharFn, ih hcs]
    simp [hc]

theorem joinSep_append (s : List Char) (A B : List (List Char))
    (hA : A ≠ []) (hB : B ≠ []) :
    joinSep s (A ++ B) = joinSep s A ++ s ++ joinSep s B := by
  induction A with
  | nil => exact absurd rfl hA
  | cons a A' ih =>
    cases A' with
    | nil =>
      cases B with
      | nil => exact absurd rfl hB
      | cons b B' =>
        rw [List.singleton_append, joinSep_cons_cons]
        rfl
    | cons a2 A2 =>
      have hne : (a2 :: A2 : List (List Char)) ≠ [] := by simp
      calc joinSep s ((a :: a2 :: A2) ++ B)
          = a ++ s ++ joinSep s ((a2 :: A2) ++ B) := by
            simp only [List.cons_append]
            rw [joinSep_cons_cons]
        _ = a ++ s ++ (joinSep s (a2 :: A2) ++ s ++ joinSep s B) := by rw [ih hne]
        _ = (a ++ s ++ joinSep s (a2 :: A2)) ++ s ++ joinSep s B := by
            simp [List.append_assoc]
        _ = joinSep s (a :: a2 :: A2) ++ s ++ joinSep s B := by rw [joinSep_cons_cons]

theorem joinSep_mid (sep : Char) (Z Y : List (List Char)) (u : List Char) (hZ : Z ≠ []) :
    joinSep [sep] (Z ++ (splitOnCharFn sep u ++ Y)) = joinSep [sep] (Z ++ (u :: Y)) := by
  cases Y with
  | nil =>
    rw [List.append_nil,
      joinSep_append [sep] Z (splitOnCharFn sep u) hZ (splitOnCharFn_ne_nil sep u),
      joinSep_splitOnCharFn,
      joinSep_append [sep] Z [u] hZ (by simp)]
    rfl
  | cons y Y' =>
    have hY : (y :: Y' : List (List Char)) ≠ [] := by simp
    have h1 : splitOnCharFn sep u ++ (y :: Y') ≠ [] := by
      simp
    rw [joinSep_append [sep] Z _ hZ h1,
      joinSep_append [sep] (splitOnCharFn sep u) (y :: Y') (splitOnCharFn_ne_nil sep u) hY,
      joinSep_splitOnCharFn,
      joinSep_append [sep] Z (u :: y :: Y') hZ (by simp),
      joinSep_cons_cons]

/-! String-level bridges between split, join and flatSplit. -/

theorem map_data_map_mk (L : List (List Char)) :
    (L.map String.mk).map String.data = L := by
  induction L with
  | nil => rfl
  | cons a L ih => simp [ih]

theorem joinLines_splitLines (s : String) : joinLines (splitLines s) = s := by
  show String.mk (joinSep "\n".data (((splitOnCharFn '\n' s.data).map String.mk).map String.data)) = s
  rw [map_data_map_mk]
  show String.mk (joinSep ['\n'] (splitOnCharFn '\n' s.data)) = s
  rw [joinSep_splitOnCharFn]

theorem flatSplit_append (A B : List String) :
    flatSplit (A ++ B) = flatSplit A ++ flatSplit B := by
  induction A with
  | nil => rfl
  | cons u A' ih => simp [flatSplit, ih]

theorem splitLines_joinLines (M : List String) (hM : M ≠ []) :
    splitLines (joinLines M) = flatSplit M := by
  induction M with
  | nil => exact absurd rfl hM
  | cons u M' ih =>
    cases M' with
    | nil =>
      have h1 : joinLines [u] = u := rfl
      rw [h1]
      simp [flatSplit]
    | cons v V =>
      have hdata : (joinLines (u :: v :: V)).data = u.data ++ '\n' :: (joinLines (v :: V)).data := by
        show joinSep ['\n'] (u.data :: (v :: V : List String).map String.data) = _
        rw [List.map_cons, joinSep_cons_cons]
        show u.data ++ ['\n'] ++ joinSep ['\n'] ((v :: V : List String).map String.data) = _
        simp [List.append_assoc]
        rfl
      show (splitOnCharFn '\n' (joinLines (u :: v :: V)).data).map String.mk = _
      rw [hdata, splitOnCharFn_append, List.map_append]
      have ih2 := ih (by simp)
      show splitLines u ++ splitLines (joinLines (v :: V)) = _
      rw [ih2]
      rfl

theorem contains_false_iff (l : List Char) (c : Char) :
    l.contains c = false ↔ c ∉ l := by
  simp [List.contains]

theorem noNl_splitLines_eq (u : String) (h : noNl u = true) : splitLines u = [u] := by
  have hnm : '\n' ∉ u.data := by
    have := h
    simp [noNl] at this
    exact (contains_false_iff u.data '\n').mp (by simpa using this)
  show (splitOnCharFn '\n' u.data).map String.mk = [u]
  rw [splitOnCharFn_of_not_mem '\n' u.data hnm]
  rfl

theorem flatSplit_of_noNl (A : List String) (h : ∀ u ∈ A, noNl u = true) :
    flatSplit A = A := by
  induction A with
  | nil => rfl
  | cons u A' ih =>
    rw [flatSplit, noNl_splitLines_eq u (h u (List.mem_cons_self u A')),
      ih (fun v hv => h v (List.mem_cons_of_mem u hv))]
    rfl

theorem mem_splitLines_noNl (s : String) : ∀ u ∈ splitLines s, noNl u = true := by
  intro u hu
  obtain ⟨p, hp, hpu⟩ := List.mem_map.mp hu
  have hc := not_contains_of_mem_splitOnCharFn '\n' s.data p hp
  subst hpu
  simp [noNl]
  exact (contains_false_iff p '\n').mp hc

theorem joinLines_mid (Z Y : List String) (u : String) (hZ : Z ≠ []) :
    joinLines (Z ++ (splitLines u ++ Y)) = joinLines (Z ++ (u :: Y)) := by
  show String.mk (joinSep "\n".data (((Z ++ (splitLines u ++ Y))).map String.data)) = _
  rw [List.map_append, List.map_append]
  have hsl : (splitLines u).map String.data = splitOnCharFn '\n' u.data := by
    show ((splitOnCharFn '\n' u.data).map String.mk).map String.data = _
    exact map_data_map_mk _
  rw [hsl]
  have hZd : Z.map String.data ≠ [] := by
    intro hx
    exact hZ (List.map_eq_nil_iff.mp hx)
  have := joinSep_mid '\n' (Z.map String.data) (Y.map String.data) u.data hZd
  show String.mk (joinSep ['\n'] (Z.map String.data ++ (splitOnCharFn '\n' u.data ++ Y.map String.data))) = _
  rw [this]
  show _ = String.mk (joinSep ['\n'] ((Z ++ (u :: Y)).map String.data))
  rw [List.map_append, List.map_cons]

theorem joinLines_confined (R Z : List String) (hZ : Z ≠ []) :
    joinLines (Z ++ flatSplit R) = joinLines (Z ++ R) := by
  induction R generalizing Z with
  | nil => rfl
  | cons u R' ih =>
    have h1 : joinLines (Z ++ flatSplit (u :: R')) = joinLines (Z ++ (u :: flatSplit R')) := by
      show joinLines (Z ++ (splitLines u ++ flatSplit R')) = _
      exact joinLines_mid Z (flatSplit R') u hZ
    rw [h1]
    have h2 : Z ++ (u :: flatSplit R') = (Z ++ [u]) ++ flatSplit R' := by simp
    have h3 : Z ++ (u :: R') = (Z ++ [u]) ++ R' := by simp
    rw [h2, h3]
    exact ih (Z ++ [u]) (by simp)

/-! Take and drop helpers on the line lists. -/

theorem take_take_of_le {α : Type} (A : List α) (m k : Nat) (h : m ≤ k) :
    (A.take k).take m = A.take m := by
  rw [List.take_take]
  rw [Nat.min_eq_left h]

theorem drop_take_drop {α : Type} (A : List α) (e k : Nat) (he : e ≤ k) (hk : k ≤ A.length) :
    (A.take k).drop e ++ A.drop k = A.drop e := by
  conv_rhs => rw [← List.take_append_drop k A]
  rw [List.drop_append_of_le_length]
  rw [List.length_take, Nat.min_eq_left hk]
  exact he

/-! Chain lemmas. -/

theorem chainSpecs_cons (lo hi s e : Nat) (r : String) (rest : List (Nat × Nat × String)) :
    chainSpecs lo hi ((s, e, r) :: rest) = true ↔
      lo < s ∧ s ≤ e ∧ e ≤ hi ∧ chainSpecs e hi rest = true := by
  simp [chainSpecs, and_assoc]

theorem chainSpecs_snoc (as : List (Nat × Nat × String)) (lo hi s e : Nat) (r : String)
    (h : chainSpecs lo hi (as ++ [(s, e, r)]) = true) :
    chainSpecs lo (s - 1) as = true ∧ lo < s ∧ s ≤ e ∧ e ≤ hi := by
  induction as generalizing lo with
  | nil =>
    rw [List.nil_append] at h
    obtain ⟨h1, h2, h3, _⟩ := (chainSpecs_cons lo hi s e r []).mp h
    exact ⟨rfl, h1, h2, h3⟩
  | cons a as' ih =>
    obtain ⟨s0, e0, r0⟩ := a
    rw [List.cons_append] at h
    obtain ⟨h1, h2, h3, h4⟩ := (chainSpecs_cons lo hi s0 e0 r0 _).mp h
    obtain ⟨ih1, ih2, ih3, ih4⟩ := ih e0 h4
    refine ⟨?_, ?_, ih3, ih4⟩
    · rw [chainSpecs_cons]
      refine ⟨h1, h2, ?_, ih1⟩
      omega
    · omega

theorem chainSpecs_mono_lo (l : List (Nat × Nat × String)) (lo lo' hi : Nat)
    (hle : lo' ≤ lo) (h : chainSpecs lo hi l = true) : chainSpecs lo' hi l = true := by
  cases l with
  | nil => rfl
  | cons a rest =>
    obtain ⟨s, e, r⟩ := a
    rw [chainSpecs_cons] at h ⊢
    obtain ⟨h1, h2, h3, h4⟩ := h
    exact ⟨by omega, h2, h3, h4⟩

theorem chainBlocks_cons (lo hi : Nat) (b : AnnotationBlock) (rest : List AnnotationBlock) :
    chainBlocks lo hi (b :: rest) = true ↔
      lo < b.startLine ∧ b.startLine ≤ b.endLine ∧ b.endLine ≤ hi ∧
      chainBlocks b.endLine hi rest = true := by
  simp [chainBlocks, and_assoc]

theorem chainSpecs_okSpecs (cfg : TranspilerConfig) (blocks : List AnnotationBlock)
    (lo hi : Nat) (h : chainBlocks lo hi blocks = true) :
    chainSpecs lo hi (okSpecs cfg blocks) = true := by
  induction blocks generalizing lo with
  | nil => rfl
  | cons b rest ih =>
    rw [chainBlocks_cons] at h
    obtain ⟨h1, h2, h3, h4⟩ := h
    by_cases hok : transformOk cfg b = true
    · have : okSpecs cfg (b :: rest) = specOf cfg b :: okSpecs cfg rest := by
        simp [okSpecs, hok]
      rw [this, chainSpecs_cons]
      exact ⟨h1, h2, h3, ih b.endLine h4⟩
    · have : okSpecs cfg (b :: rest) = okSpecs cfg rest := by
        simp [okSpecs, hok]
      rw [this]
      exact chainSpecs_mono_lo _ _ _ _ (by omega) (ih b.endLine h4)

theorem chainSpecs_map_specOf (cfg : TranspilerConfig) (blocks : List AnnotationBlock)
    (lo hi : Nat) (h : chainBlocks lo hi blocks = true) :
    chainSpecs lo hi (blocks.map (specOf cfg)) = true := by
  induction blocks generalizing lo with
  | nil => rfl
  | cons b rest ih =>
    rw [chainBlocks_cons] at h
    obtain ⟨h1, h2, h3, h4⟩ := h
    rw [List.map_cons]
    rw [chainSpecs_cons]
    exact ⟨h1, h2, h3, ih b.endLine h4⟩

theorem okSpecs_eq_map (cfg : TranspilerConfig) (blocks : List AnnotationBlock)
    (h : ∀ b ∈ blocks, transformOk cfg b = true) :
    okSpecs cfg blocks = blocks.map (specOf cfg) := by
  induction blocks with
  | nil => rfl
  | cons b rest ih =>
    have hb := h b (List.mem_cons_self b rest)
    have hrest := fun x hx => h x (List.mem_cons_of_mem b hx)
    simp [okSpecs, hb] at ih ⊢
    exact ih hrest

/-! Splice lemmas. -/

theorem spliceAsc_append_confined (as : List (Nat × Nat × String)) (P X : List String)
    (i : Nat) (hi : i ≤ P.length) (hchain : chainSpecs i P.length as = true) :
    spliceAsc (P ++ X) i as = spliceAsc P i as ++ X := by
  induction as generalizing i with
  | nil =>
    show (P ++ X).drop i = P.drop i ++ X
    exact List.drop_append_of_le_length hi
  | cons a as' ih =>
    obtain ⟨s, e, r⟩ := a
    rw [chainSpecs_cons] at hchain
    obtain ⟨h1, h2, h3, h4⟩ := hchain
    show ((P ++ X).take (s - 1)).drop i ++ [r] ++ spliceAsc (P ++ X) e as' =
      ((P.take (s - 1)).drop i ++ [r] ++ spliceAsc P e as') ++ X
    rw [List.take_append_of_le_length (by omega), ih e h3 h4]
    simp [List.append_assoc]

theorem spliceAsc_snoc (as : List (Nat × Nat × String)) (M : List String)
    (i s e : Nat) (r : String) (hi : i ≤ s - 1) (hs : s - 1 ≤ M.length)
    (hchain : chainSpecs i (s - 1) as = true) :
    spliceAsc M i (as ++ [(s, e, r)]) =
      spliceAsc (M.take (s - 1) ++ [r] ++ M.drop e) i as := by
  induction as generalizing i with
  | nil =>
    show (M.take (s - 1)).drop i ++ [r] ++ M.drop e =
      (M.take (s - 1) ++ [r] ++ M.drop e).drop i
    have h1 : M.take (s - 1) ++ [r] ++ M.drop e = M.take (s - 1) ++ ([r] ++ M.drop e) := by
      simp [List.append_assoc]
    rw [h1, List.drop_append_of_le_length (by
      rw [List.length_take, Nat.min_eq_left hs]; exact hi)]
    simp [List.append_assoc]
  | cons a as' ih =>
    obtain ⟨s0, e0, r0⟩ := a
    rw [chainSpecs_cons] at hchain
    obtain ⟨h1, h2, h3, h4⟩ := hchain
    show (M.take (s0 - 1)).drop i ++ [r0] ++ spliceAsc M e0 (as' ++ [(s, e, r)]) =
      ((M.take (s - 1) ++ [r] ++ M.drop e).take (s0 - 1)).drop i ++ [r0] ++
        spliceAsc (M.take (s - 1) ++ [r] ++ M.drop e) e0 as'
    have htake : (M.take (s - 1) ++ [r] ++ M.drop e).take (s0 - 1) = M.take (s0 - 1) := by
      rw [List.append_assoc, List.take_append_of_le_length (by
        rw [List.length_take, Nat.min_eq_left hs]; omega),
        take_take_of_le M (s0 - 1) (s - 1) (by omega)]
    rw [htake, ih e0 h3 h4]

/-! Core replacement theorem: descending span replacement over a text
equals the single ascending splice. -/

theorem foldReplace_core (specs : List (Nat × Nat × String)) (M : List String) (k : Nat)
    (hk : k ≤ M.length) (hnl : ∀ u ∈ M.take k, noNl u = true)
    (hchain : chainSpecs 0 k specs = true) :
    foldReplace (joinLines M) specs.reverse = joinLines (spliceAsc M 0 specs) := by
  induction specs using List.reverseRecOn generalizing M k with
  | nil =>
    show joinLines M = joinLines (M.drop 0)
    rw [List.drop_zero]
  | append_singleton as a ih =>
    obtain ⟨s, e, r⟩ := a
    obtain ⟨hcas, hs, hse, hek⟩ := chainSpecs_snoc as 0 k s e r hchain
    have hM : M ≠ [] := by
      intro hnil
      subst hnil
      simp at hk
      omega
    rw [List.reverse_append, List.reverse_singleton, List.singleton_append]
    show foldReplace (replaceSpan (joinLines M) s e r) as.reverse = _
    have hS : splitLines (joinLines M) = M.take k ++ flatSplit (M.drop k) := by
      rw [splitLines_joinLines M hM]
      conv_lhs => rw [← List.take_append_drop k M]
      rw [flatSplit_append, flatSplit_of_noNl (M.take k) hnl]
    have hlenTk : (M.take k).length = k := by
      rw [List.length_take, Nat.min_eq_left hk]
    have hPlen : (M.take (s - 1)).length = s - 1 := by
      rw [List.length_take, Nat.min_eq_left (by omega)]
    have htake : (splitLines (joinLines M)).take (s - 1) = M.take (s - 1) := by
      rw [hS, List.take_append_of_le_length (by omega), take_take_of_le M _ k (by omega)]
    have hdrop : (splitLines (joinLines M)).drop e
        = (M.take k).drop e ++ flatSplit (M.drop k) := by
      rw [hS, List.drop_append_of_le_length (by omega)]
    have hrs : replaceSpan (joinLines M) s e r
        = joinLines (M.take (s - 1) ++ [r] ++ ((M.take k).drop e ++ flatSplit (M.drop k))) := by
      show joinLines ((splitLines (joinLines M)).take (s - 1) ++ [r] ++
        (splitLines (joinLines M)).drop e) = _
      rw [htake, hdrop]
    rw [hrs]
    have hlen2 : s - 1 ≤ (M.take (s - 1) ++ [r] ++ ((M.take k).drop e ++ flatSplit (M.drop k))).length := by
      simp only [List.length_append, hPlen]
      omega
    have htk2 : (M.take (s - 1) ++ [r] ++ ((M.take k).drop e ++ flatSplit (M.drop k))).take (s - 1)
        = M.take (s - 1) := by
      rw [List.append_assoc, List.take_append_of_le_length (by omega),
        List.take_of_length_le (by omega)]
    have hnl2 : ∀ u ∈ (M.take (s - 1) ++ [r] ++ ((M.take k).drop e ++ flatSplit (M.drop k))).take (s - 1),
        noNl u = true := by
      intro u hu
      rw [htk2] at hu
      have : u ∈ M.take k := by
        rw [← take_take_of_le M (s - 1) k (by omega)] at hu
        exact List.take_subset _ _ hu
      exact hnl u this
    have hIH := ih (M.take (s - 1) ++ [r] ++ ((M.take k).drop e ++ flatSplit (M.drop k)))
      (s - 1) hlen2 hnl2 hcas
    rw [hIH]
    have hsplice2 : spliceAsc (M.take (s - 1) ++ [r] ++ ((M.take k).drop e ++ flatSplit (M.drop k))) 0 as
        = spliceAsc (M.take (s - 1)) 0 as ++ ([r] ++ ((M.take k).drop e ++ flatSplit (M.drop k))) := by
      rw [List.append_assoc]
      exact spliceAsc_append_confined as (M.take (s - 1)) _ 0 (by omega)
        (by rw [hPlen]; exact hcas)
    have hsplice1 : spliceAsc M 0 (as ++ [(s, e, r)])
        = spliceAsc (M.take (s - 1) ++ [r] ++ M.drop e) 0 as :=
      spliceAsc_snoc as M 0 s e r (by omega) (by omega) hcas
    have hsplice1b : spliceAsc (M.take (s - 1) ++ [r] ++ M.drop e) 0 as
        = spliceAsc (M.take (s - 1)) 0 as ++ ([r] ++ M.drop e) := by
      rw [List.append_assoc]
      exact spliceAsc_append_confined as (M.take (s - 1)) _ 0 (by omega)
        (by rw [hPlen]; exact hcas)
    have hdropk : (M.take k).drop e ++ M.drop k = M.drop e :=
      drop_take_drop M e k hek hk
    rw [hsplice2, hsplice1, hsplice1b, ← hdropk]
    have hconf := joinLines_confined (M.drop k)
      (spliceAsc (M.take (s - 1)) 0 as ++ [r] ++ (M.take k).drop e) (by simp)
    calc joinLines (spliceAsc (M.take (s - 1)) 0 as ++ ([r] ++ ((M.take k).drop e ++ flatSplit (M.drop k))))
        = joinLines ((spliceAsc (M.take (s - 1)) 0 as ++ [r] ++ (M.take k).drop e) ++ flatSplit (M.drop k)) := by
          simp [List.append_assoc]
      _ = joinLines ((spliceAsc (M.take (s - 1)) 0 as ++ [r] ++ (M.take k).drop e) ++ M.drop k) := hconf
      _ = joinLines (spliceAsc (M.take (s - 1)) 0 as ++ ([r] ++ ((M.take k).drop e ++ M.drop k))) := by
          simp [List.append_assoc]

/-! Projections of the transform loop. -/

theorem foldl_transformStep (cfg : TranspilerConfig) (l : List AnnotationBlock) :
    ∀ (c : String) (imps : List String) (errs : List TransformError),
    l.foldl (transformStep cfg) (c, imps, errs)
      = (foldReplace c (okSpecs cfg l), foldImports cfg imps l, errs ++ failErrors cfg l) := by
  induction l with
  | nil =>
    intro c imps errs
    simp [okSpecs, foldImports, failErrors, foldReplace]
  | cons b rest ih =>
    intro c imps errs
    show rest.foldl (transformStep cfg) (transformStep cfg (c, imps, errs) b) = _
    cases hb : transformBlock cfg b with
    | ok p =>
      obtain ⟨m, is⟩ := p
      have hok : transformOk cfg b = true := by simp [transformOk, hb]
      have hmk : markupOf cfg b = m := by simp [markupOf, hb]
      have him : importsAddedBy cfg b = is := by simp [importsAddedBy, hb]
      have hstep : transformStep cfg (c, imps, errs) b
          = (replaceSpan c b.startLine b.endLine m, addImports imps is, errs) := by
        simp [transformStep, hb]
        rfl
      rw [hstep, ih]
      have hok2 : okSpecs cfg (b :: rest)
          = (b.startLine, b.endLine, m) :: okSpecs cfg rest := by
        simp [okSpecs, hok, specOf, hmk]
      have hfe : failErrors cfg (b :: rest) = failErrors cfg rest := by
        simp [failErrors, hok]
      have hfi : foldImports cfg imps (b :: rest)
          = foldImports cfg (addImports imps is) rest := by
        simp [foldImports, him]
      rw [hok2, hfe, hfi]
      rfl
    | error msg =>
      have hok : transformOk cfg b = false := by simp [transformOk, hb]
      have hfeb : failErrorOf cfg b =
          ⟨"Failed to transform " ++ b.type ++ ": " ++ msg, b.startLine, .error, some b.type⟩ := by
        simp [failErrorOf, hb]
      have hstep : transformStep cfg (c, imps, errs) b
          = (c, imps, errs ++ [failErrorOf cfg b]) := by
        simp [transformStep, hb, hfeb]
      rw [hstep, ih]
      have hok2 : okSpecs cfg (b :: rest) = okSpecs cfg rest := by
        simp [okSpecs, hok]
      have hfe : failErrors cfg (b :: rest) = failErrorOf cfg b :: failErrors cfg rest := by
        simp [failErrors, hok]
      have hfi : foldImports cfg imps (b :: rest) = foldImports cfg imps rest := by
        have : importsAddedBy cfg b = [] := by simp [importsAddedBy, hb]
        simp [foldImports, this, addImports]
      rw [hok2, hfe, hfi]
      simp

theorem transformAnnotations_eq (cfg : TranspilerConfig) (content : String)
    (blocks : List AnnotationBlock) :
    transformAnnotations cfg content blocks
      = ⟨foldReplace content (okSpecs cfg (sortByStartDesc blocks)),
         foldImports cfg [] (sortByStartDesc blocks),
         failErrors cfg (sortByStartDesc blocks)⟩ := by
  show (fun st : String × List String × List TransformError => (⟨st.1, st.2.1, st.2.2⟩ : TransformResult))
      ((sortByStartDesc blocks).foldl (transformStep cfg) (content, [], [])) = _
  rw [foldl_transformStep]
  rfl

/-! Sorting lemmas. -/

theorem insertDesc_eq_cons (b : AnnotationBlock) (acc : List AnnotationBlock)
    (h : ∀ a ∈ acc, a.startLine < b.startLine) : insertDesc b acc = b :: acc := by
  cases acc with
  | nil => rfl
  | cons x xs =>
    have := h x (List.mem_cons_self x xs)
    simp [insertDesc, this]

theorem chainBlocks_all_gt (l : List AnnotationBlock) (lo hi : Nat)
    (h : chainBlocks lo hi l = true) : ∀ b ∈ l, lo < b.startLine := by
  induction l generalizing lo with
  | nil => intro b hb; simp at hb
  | cons x rest ih =>
    rw [chainBlocks_cons] at h
    obtain ⟨h1, h2, h3, h4⟩ := h
    intro b hb
    rcases List.mem_cons.mp hb with hb | hb
    · subst hb; exact h1
    · have := ih x.endLine h4 b hb
      omega

theorem sortByStartDesc_eq_reverse (blocks : List AnnotationBlock) (lo hi : Nat)
    (h : chainBlocks lo hi blocks = true) : sortByStartDesc blocks = blocks.reverse := by
  have aux : ∀ (bl : List AnnotationBlock) (lo0 hi0 : Nat) (acc : List AnnotationBlock),
      chainBlocks lo0 hi0 bl = true → (∀ a ∈ acc, a.startLine ≤ lo0) →
      bl.foldl (fun acc b => insertDesc b acc) acc = bl.reverse ++ acc := by
    intro bl
    induction bl with
    | nil => intro lo0 hi0 acc hch hacc; simp
    | cons b rest ih =>
      intro lo0 hi0 acc hch hacc
      rw [chainBlocks_cons] at hch
      obtain ⟨h1, h2, h3, h4⟩ := hch
      have hins : insertDesc b acc = b :: acc :=
        insertDesc_eq_cons b acc (fun a ha => by have := hacc a ha; omega)
      show rest.foldl (fun acc b => insertDesc b acc) (insertDesc b acc) = _
      rw [hins, ih b.endLine hi0 (b :: acc) h4 ?hacc2]
      · simp
      case hacc2 =>
        intro a ha
        rcases List.mem_cons.mp ha with ha | ha
        · subst ha; exact h2
        · have := hacc a ha; omega
  have := aux blocks lo hi [] h (by simp)
  simpa [sortByStartDesc] using this

theorem mem_insertDesc (x b : AnnotationBlock) (l : List AnnotationBlock) :
    x ∈ insertDesc b l ↔ x = b ∨ x ∈ l := by
  induction l with
  | nil => simp [insertDesc]
  | cons y ys ih =>
    by_cases hc : b.startLine > y.startLine
    · simp [insertDesc, hc]
    · simp [insertDesc, hc, ih]
      tauto

theorem mem_sortByStartDesc (x : AnnotationBlock) (l : List AnnotationBlock) :
    x ∈ sortByStartDesc l ↔ x ∈ l := by
  have aux : ∀ (bl : List AnnotationBlock) (acc : List AnnotationBlock),
      x ∈ bl.foldl (fun acc b => insertDesc b acc) acc ↔ x ∈ bl ∨ x ∈ acc := by
    intro bl
    induction bl with
    | nil => intro acc; simp
    | cons b rest ih =>
      intro acc
      show x ∈ rest.foldl (fun acc b => insertDesc b acc) (insertDesc b acc) ↔ _
      rw [ih (insertDesc b acc), mem_insertDesc]
      simp [List.mem_cons]
      tauto
  have := aux l []
  simpa [sortByStartDesc] using this

theorem insertDesc_ne_nil (b : AnnotationBlock) (l : List AnnotationBlock) :
    insertDesc b l ≠ [] := by
  cases l with
  | nil => simp [insertDesc]
  | cons y ys => by_cases hc : b.startLine > y.startLine <;> simp [insertDesc, hc]

theorem sortByStartDesc_ne_nil (l : List AnnotationBlock) (h : l ≠ []) :
    sortByStartDesc l ≠ [] := by
  have aux : ∀ (bl : List AnnotationBlock) (acc : List AnnotationBlock), acc ≠ [] →
      bl.foldl (fun acc b => insertDesc b acc) acc ≠ [] := by
    intro bl
    induction bl with
    | nil => intro acc hacc; simpa
    | cons b rest ih =>
      intro acc hacc
      exact ih (insertDesc b acc) (insertDesc_ne_nil b acc)
  cases l with
  | nil => exact absurd rfl h
  | cons b rest =>
    show rest.foldl (fun acc b => insertDesc b acc) (insertDesc b []) ≠ []
    exact aux rest (insertDesc b []) (insertDesc_ne_nil b [])

/-! Lemmas connecting emission outcomes to block types. -/

theorem transformBlock_error_msg (cfg : TranspilerConfig) (b : AnnotationBlock) (msg : String)
    (hb : transformBlock cfg b = .error msg) :
    msg = "Unknown annotation type: " ++ b.type := by
  unfold transformBlock at hb
  split at hb <;> try simp_all
  split at hb <;> try simp_all
  split at hb <;> simp_all

theorem failErrors_nil_of_ok (cfg : TranspilerConfig) (l : List AnnotationBlock)
    (h : ∀ b ∈ l, transformOk cfg b = true) : failErrors cfg l = [] := by
  induction l with
  | nil => rfl
  | cons b rest ih =>
    have hb := h b (List.mem_cons_self b rest)
    have hstep : failErrors cfg (b :: rest) = failErrors cfg rest := by
      simp [failErrors, hb]
    rw [hstep]
    exact ih (fun x hx => h x (List.mem_cons_of_mem b hx))

theorem importsAddedBy_callout (cfg : TranspilerConfig) (b : AnnotationBlock)
    (h : isCalloutType b.type = true) : importsAddedBy cfg b = [calloutImportDecl] := by
  by_cases h1 : b.type = "callout-info"
  · unfold importsAddedBy transformBlock
    rw [h1]
    rfl
  by_cases h2 : b.type = "callout-warn"
  · unfold importsAddedBy transformBlock
    rw [h2]
    rfl
  by_cases h3 : b.type = "callout-error"
  · unfold importsAddedBy transformBlock
    rw [h3]
    rfl
  by_cases h4 : b.type = "callout-note"
  · unfold importsAddedBy transformBlock
    rw [h4]
    rfl
  exfalso
  simp [isCalloutType, h1, h2, h3, h4] at h

theorem foldImports_callout_aux (cfg : TranspilerConfig) (l : List AnnotationBlock)
    (h : ∀ b ∈ l, isCalloutType b.type = true) :
    foldImports cfg [calloutImportDecl] l = [calloutImportDecl] := by
  induction l with
  | nil => rfl
  | cons b rest ih =>
    have hb := importsAddedBy_callout cfg b (h b (List.mem_cons_self b rest))
    show foldImports cfg (addImports [calloutImportDecl] (importsAddedBy cfg b)) rest = _
    rw [hb]
    have : addImports [calloutImportDecl] [calloutImportDecl] = [calloutImportDecl] := by
      simp [addImports, addImport]
    rw [this]
    exact ih (fun x hx => h x (List.mem_cons_of_mem b hx))

theorem foldImports_callout (cfg : TranspilerConfig) (l : List AnnotationBlock)
    (h1 : l ≠ []) (h2 : ∀ b ∈ l, isCalloutType b.type = true) :
    foldImports cfg [] l = [calloutImportDecl] := by
  cases l with
  | nil => exact absurd rfl h1
  | cons b rest =>
    have hb := importsAddedBy_callout cfg b (h2 b (List.mem_cons_self b rest))
    show foldImports cfg (addImports [] (importsAddedBy cfg b)) rest = _
    rw [hb]
    have : addImports [] [calloutImportDecl] = [calloutImportDecl] := by
      simp [addImports, addImport]
    rw [this]
    exact foldImports_callout_aux cfg rest (fun x hx => h2 x (List.mem_cons_of_mem b hx))

/-- C4: for chained (correctly closed, non-overlapping, in-range) blocks
that all emit successfully, transformAnnotations replaces exactly the
1-based inclusive line span startLine..endLine of each block by its
emitted markup as a single unit, leaves every line outside the spans
unchanged and in original relative order, keeps the emitted markup in
source order, records no errors, and processes the blocks from highest
start line to lowest (the sorted list is the reverse of the ascending
input). -/
theorem c4_replacement_frame (cfg : TranspilerConfig) (content : String)
    (blocks : List AnnotationBlock)
    (hchain : chainBlocks 0 (splitLines content).length blocks = true)
    (hok : ∀ b ∈ blocks, transformOk cfg b = true) :
    (transformAnnotations cfg content blocks).content
      = joinLines (spliceAsc (splitLines content) 0 (blocks.map (specOf cfg)))
    ∧ (transformAnnotations cfg content blocks).errors = []
    ∧ sortByStartDesc blocks = blocks.reverse := by
  have hsort := sortByStartDesc_eq_reverse blocks 0 _ hchain
  have heq := transformAnnotations_eq cfg content blocks
  refine ⟨?_, ?_, hsort⟩
  · rw [heq]
    show foldReplace content (okSpecs cfg (sortByStartDesc blocks)) = _
    rw [hsort]
    have hrev : okSpecs cfg blocks.reverse = (okSpecs cfg blocks).reverse := by
      simp [okSpecs, List.filterMap_reverse]
    rw [hrev, okSpecs_eq_map cfg blocks hok]
    have hcontent : content = joinLines (splitLines content) :=
      (joinLines_splitLines content).symm
    conv_lhs => rw [hcontent]
    exact foldReplace_core (blocks.map (specOf cfg)) (splitLines content)
      (splitLines content).length (le_refl _)
      (by
        intro u hu
        exact mem_splitLines_noNl content u (by simpa [List.take_length] using hu))
      (chainSpecs_map_specOf cfg blocks 0 _ hchain)
  · rw [heq]
    show failErrors cfg (sortByStartDesc blocks) = []
    rw [hsort]
    have : failErrors cfg blocks.reverse = (failErrors cfg blocks).reverse := by
      simp [failErrors, List.filterMap_reverse]
    rw [this, failErrors_nil_of_ok cfg blocks hok]
    rfl

theorem c4_replacement_frame_witness :
    chainBlocks 0 (splitLines c4input).length [c4blockA, c4blockB] = true
    ∧ (∀ b ∈ [c4blockA, c4blockB], transformOk defaultTranspilerConfig b = true)
    ∧ (transformAnnotations defaultTranspilerConfig c4input [c4blockA, c4blockB]).content
        = joinLines (spliceAsc (splitLines c4input) 0
            ([c4blockA, c4blockB].map (specOf defaultTranspilerConfig)))
    ∧ (transformAnnotations defaultTranspilerConfig c4input [c4blockA, c4blockB]).errors = [] :=
  ⟨by decide, by decide,
    (c4_replacement_frame defaultTranspilerConfig c4input [c4blockA, c4blockB]
      (by decide) (by decide)).1,
    (c4_replacement_frame defaultTranspilerConfig c4input [c4blockA, c4blockB]
      (by decide) (by decide)).2.1⟩

/-- C6: a block whose type is neither built in nor a key of the configured
componentMappings contributes exactly one error of kind error naming the
type and start line of that block (the unknown-annotation-type message),
its
original lines stay in the output unchanged (the content equals the splice
over only the successfully emitted blocks, so failing spans are never
replaced), and a failing block does not affect the other blocks, which are
replaced as usual. -/
theorem c6_unknown_type_isolated (cfg : TranspilerConfig) (content : String)
    (blocks : List AnnotationBlock)
    (hchain : chainBlocks 0 (splitLines content).length blocks = true) :
    (transformAnnotations cfg content blocks).errors = (failErrors cfg blocks).reverse
    ∧ (transformAnnotations cfg content blocks).content
        = joinLines (spliceAsc (splitLines content) 0 (okSpecs cfg blocks))
    ∧ (∀ b ∈ blocks, transformOk cfg b = false →
        failErrorOf cfg b
          = ⟨"Failed to transform " ++ b.type ++ ": Unknown annotation type: " ++ b.type,
             b.startLine, .error, some b.type⟩) := by
  have hsort := sortByStartDesc_eq_reverse blocks 0 _ hchain
  have heq := transformAnnotations_eq cfg content blocks
  refine ⟨?_, ?_, ?_⟩
  · rw [heq]
    show failErrors cfg (sortByStartDesc blocks) = _
    rw [hsort]
    simp [failErrors, List.filterMap_reverse]
  · rw [heq]
    show foldReplace content (okSpecs cfg (sortByStartDesc blocks)) = _
    rw [hsort]
    have hrev : okSpecs cfg blocks.reverse = (okSpecs cfg blocks).reverse := by
      simp [okSpecs, List.filterMap_reverse]
    rw [hrev]
    have hcontent : content = joinLines (splitLines content) :=
      (joinLines_splitLines content).symm
    conv_lhs => rw [hcontent]
    exact foldReplace_core (okSpecs cfg blocks) (splitLines content)
      (splitLines content).length (le_refl _)
      (by
        intro u hu
        exact mem_splitLines_noNl content u (by simpa [List.take_length] using hu))
      (chainSpecs_okSpecs cfg blocks 0 _ hchain)
  · intro b _ hfail
    cases hb : transformBlock cfg b with
    | ok p => simp [transformOk, hb] at hfail
    | error msg =>
      have := transformBlock_error_msg cfg b msg hb
      subst this
      simp [failErrorOf, hb, String.append_assoc]
      congr 1

theorem c6_unknown_type_isolated_witness :
    chainBlocks 0 (splitLines c6input).length [c6blockU, c6blockK] = true
    ∧ (transformAnnotations defaultTranspilerConfig c6input [c6blockU, c6blockK]).errors
        = (failErrors defaultTranspilerConfig [c6blockU, c6blockK]).reverse
    ∧ (transformAnnotations defaultTranspilerConfig c6input [c6blockU, c6blockK]).content
        = joinLines (spliceAsc (splitLines c6input) 0
            (okSpecs defaultTranspilerConfig [c6blockU, c6blockK]))
    ∧ (failErrors defaultTranspilerConfig [c6blockU, c6blockK]).reverse
        = [⟨"Failed to transform mystery: Unknown annotation type: mystery", 1, .error,
            some "mystery"⟩] :=
  ⟨by decide,
    (c6_unknown_type_isolated defaultTranspilerConfig c6input [c6blockU, c6blockK]
      (by decide)).1,
    (c6_unknown_type_isolated defaultTranspilerConfig c6input [c6blockU, c6blockK]
      (by decide)).2.1,
    by decide⟩

theorem addImport_count_le (s : List String) (i x : String) (h : s.count x ≤ 1) :
    (addImport s i).count x ≤ 1 := by
  unfold addImport
  by_cases hm : i ∈ s
  · rw [if_pos hm]; exact h
  · rw [if_neg hm, List.count_append]
    by_cases hx : x = i
    · subst hx
      rw [List.count_eq_zero.mpr hm]
      simp
    · rw [List.count_eq_zero.mpr (by simp [hx] : x ∉ [i])]
      simpa using h

theorem addImport_mem_self (s : List String) (i : String) : i ∈ addImport s i := by
  unfold addImport
  by_cases hm : i ∈ s
  · rw [if_pos hm]; exact hm
  · rw [if_neg hm]; simp

theorem addImport_mem_mono (s : List String) (i x : String) (h : x ∈ s) :
    x ∈ addImport s i := by
  unfold addImport
  by_cases hm : i ∈ s
  · rw [if_pos hm]; exact h
  · rw [if_neg hm]; exact List.mem_append_left _ h

theorem addImports_count_le (decls : List String) (s : List String) (x : String)
    (h : s.count x ≤ 1) : (addImports s decls).count x ≤ 1 := by
  induction decls generalizing s with
  | nil => exact h
  | cons i rest ih =>
    show (addImports (addImport s i) rest).count x ≤ 1
    exact ih (addImport s i) (addImport_count_le s i x h)

theorem addImports_mem_mono (decls : List String) (s : List String) (x : String)
    (h : x ∈ s) : x ∈ addImports s decls := by
  induction decls generalizing s with
  | nil => exact h
  | cons i rest ih =>
    show x ∈ addImports (addImport s i) rest
    exact ih (addImport s i) (addImport_mem_mono s i x h)

theorem foldImports_count_le (cfg : TranspilerConfig) (L : List AnnotationBlock)
    (s : List String) (x : String) (h : s.count x ≤ 1) :
    (foldImports cfg s L).count x ≤ 1 := by
  induction L generalizing s with
  | nil => exact h
  | cons b rest ih =>
    show (foldImports cfg (addImports s (importsAddedBy cfg b)) rest).count x ≤ 1
    exact ih (addImports s (importsAddedBy cfg b)) (addImports_count_le _ s x h)

theorem foldImports_mem_mono (cfg : TranspilerConfig) (L : List AnnotationBlock)
    (s : List String) (x : String) (h : x ∈ s) : x ∈ foldImports cfg s L := by
  induction L generalizing s with
  | nil => exact h
  | cons b rest ih =>
    show x ∈ foldImports cfg (addImports s (importsAddedBy cfg b)) rest
    exact ih (addImports s (importsAddedBy cfg b)) (addImports_mem_mono _ s x h)

theorem foldImports_mem_callout (cfg : TranspilerConfig) (L : List AnnotationBlock) :
    ∀ (s : List String), (∃ b ∈ L, isCalloutType b.type = true) →
      calloutImportDecl ∈ foldImports cfg s L := by
  induction L with
  | nil =>
    intro s h
    rcases h with ⟨b, hb, _⟩
    exact absurd hb (List.not_mem_nil b)
  | cons b rest ih =>
    intro s h
    rcases h with ⟨b0, hb0, hc⟩
    rcases List.mem_cons.mp hb0 with he | ht
    · subst he
      show calloutImportDecl ∈ foldImports cfg (addImports s (importsAddedBy cfg b0)) rest
      refine foldImports_mem_mono cfg rest _ calloutImportDecl ?_
      rw [importsAddedBy_callout cfg b0 hc]
      show calloutImportDecl ∈ addImport s calloutImportDecl
      exact addImport_mem_self s calloutImportDecl
    · show calloutImportDecl ∈ foldImports cfg (addImports s (importsAddedBy cfg b)) rest
      exact ih _ ⟨b0, ht, hc⟩

/-- C8: import registration is idempotent; for every input whose block
list contains at least one callout block of any of the four kinds (other
block types, failing blocks included, may appear alongside), the imports
set of the result holds the Callout import declaration exactly once. -/
theorem c8_callout_import_once (cfg : TranspilerConfig) (content : String)
    (blocks : List AnnotationBlock)
    (h : ∃ b ∈ blocks, isCalloutType b.type = true) :
    ((transformAnnotations cfg content blocks).imports).count calloutImportDecl = 1 := by
  rw [transformAnnotations_eq]
  show (foldImports cfg [] (sortByStartDesc blocks)).count calloutImportDecl = 1
  have hsorted : ∃ b ∈ sortByStartDesc blocks, isCalloutType b.type = true := by
    rcases h with ⟨b, hb, hc⟩
    exact ⟨b, (mem_sortByStartDesc b blocks).mpr hb, hc⟩
  have hmem := foldImports_mem_callout cfg (sortByStartDesc blocks) [] hsorted
  have hle := foldImports_count_le cfg (sortByStartDesc blocks) [] calloutImportDecl (by simp)
  have hge : 0 < (foldImports cfg [] (sortByStartDesc blocks)).count calloutImportDecl :=
    List.count_pos_iff.mpr hmem
  omega

theorem c8_callout_import_once_witness :
    (∃ b ∈ [c8block1, c8blockSteps, c8block3, c8blockX], isCalloutType b.type = true)
    ∧ ((transformAnnotations defaultTranspilerConfig c8input
        [c8block1, c8blockSteps, c8block3, c8blockX]).imports).count calloutImportDecl = 1 :=
  ⟨by decide, c8_callout_import_once defaultTranspilerConfig c8input
      [c8block1, c8blockSteps, c8block3, c8blockX] (by decide)⟩

/-- C1 (code-bug evidence): the opening-marker regex of the scanner
demands at
least one whitespace character after the three colons, so the no-space
opener of the claim (used by the README examples of the repository itself
and emitted by its own reverse transformer) is not recognized: the claimed
input yields zero blocks and one stray-closer error, while the
space-separated variant parses into one callout-warn block and forward
transforms to the wrapper tag with type warn. -/
theorem c1_open_marker_requires_space :
    (parseAnnotations ":::callout-warn\nBe careful\n:::").1 = []
    ∧ (parseAnnotations ":::callout-warn\nBe careful\n:::").2
        = [⟨"Found closing annotation without opening block", 3, .error, none⟩]
    ∧ matchOpenMarker ":::callout-warn" = none
    ∧ matchOpenMarker "::: callout-warn" = some ("callout-warn", none)
    ∧ (parseAnnotations "::: callout-warn\nBe careful\n:::").1
        = [⟨"callout-warn", "Be careful", [], 1, 3, "::: callout-warn\nBe careful\n:::"⟩]
    ∧ (transformAnnotations defaultTranspilerConfig "::: callout-warn\nBe careful\n:::"
        (parseAnnotations "::: callout-warn\nBe careful\n:::").1).content
        = "<Callout type=\"warn\">\nBe careful\n</Callout>" := by
  decide

/-- C2 (code-bug evidence): the transformer instance keeps one shared
usedImports set, clears it at the start of every call and stores the very
same set into each returned result, so the imports observed through the
result of the first call change when a second call runs on the same
instance:
after the first call the shared set holds the Callout declaration, after
the second call (with no blocks) it is empty. -/
theorem c2_shared_imports_counterexample :
    importsSeenVia (transformAnnotationsCall defaultTranspilerConfig ⟨[]⟩
        "::: callout-info\nHello\n:::"
        [⟨"callout-info", "Hello", [], 1, 3, "::: callout-info\nHello\n:::"⟩]).2
      = [calloutImportDecl]
    ∧ importsSeenVia (transformAnnotationsCall defaultTranspilerConfig
        (transformAnnotationsCall defaultTranspilerConfig ⟨[]⟩ "::: callout-info\nHello\n:::"
          [⟨"callout-info", "Hello", [], 1, 3, "::: callout-info\nHello\n:::"⟩]).2
        "no blocks here" []).2 = []
    ∧ [calloutImportDecl] ≠ ([] : List String) := by
  decide

/-- C3 counterexample: a file whose text is a single stray closer scans
with one error of kind error, yet with a successful write the returned
FileProcessingResult still has success = true, refuting the claimed
equivalence between success and the absence of error-kind entries. -/
theorem c3_success_despite_errors :
    (processFile defaultTranspilerConfig "doc.md" "doc.mdx" ":::" none).success = true
    ∧ errorKindCount (processFile defaultTranspilerConfig "doc.md" "doc.mdx" ":::" none).errors = 1
    ∧ ¬ ((processFile defaultTranspilerConfig "doc.md" "doc.mdx" ":::" none).success = true
          ↔ errorKindCount (processFile defaultTranspilerConfig "doc.md" "doc.mdx" ":::" none).errors = 0) := by
  decide

/-- C3 amended: the success flag of a processed file reflects only the
outcome of the write step alone (scan, validation and emission errors of
kind error
never flip it), while the complete combined error list of all four stages
is always returned to the caller. -/
theorem c3_success_write_policy (cfg : TranspilerConfig)
    (inputPath outputPath content : String) (writeOutcome : Option String) :
    (processFile cfg inputPath outputPath content writeOutcome).success = writeOutcome.isNone
    ∧ (processFile cfg inputPath outputPath content writeOutcome).errors
        = (parseAnnotations content).2
          ++ validationErrorsOf cfg (parseAnnotations content).1
          ++ (transformAnnotations cfg content (parseAnnotations content).1).errors
          ++ (writeTransformedFileResult inputPath outputPath writeOutcome).errors := by
  cases writeOutcome <;> simp [processFile, writeTransformedFileResult, Option.isNone]

/-- C5 counterexample: on a second opener while a block is open, the
emitted unclosed-block error carries the line of the new opener (2), not
the opening line of the unclosed block (1), although its message text
names
line 1; the unclosed block contributes no block record. -/
theorem c5_second_opener_line_counterexample :
    (parseAnnotations "::: a\n::: b\n:::").2
      = [⟨"Unclosed annotation block \x27a\x27 started at line 1", 2, .error, some "a"⟩]
    ∧ (parseAnnotations "::: a\n::: b\n:::").2.map TransformError.line = [2]
    ∧ (parseAnnotations "::: a\n::: b\n:::").1.map AnnotationBlock.type = ["b"] := by
  decide

/-- C5 amended: an unclosed block always yields exactly one error of kind
error and never a block record, but the line field of the error depends
on how
the block was abandoned: a second opener while a block is open emits the
error at the line of the new opener (the message references the start
line of the unclosed block), while end-of-input emits it at the opening
line of the unclosed block itself. -/
theorem c5_unclosed_error_policy :
    (∀ (st : ScanState) (cb : OpenBlock) (n : Nat) (line : String) (ty : String)
       (attrs : Option String),
       st.current = some cb → matchOpenMarker line = some (ty, attrs) →
       (scanStep st (n, line)).errors = st.errors ++ [⟨unclosedMsg cb, n, .error, some cb.type⟩]
       ∧ (scanStep st (n, line)).blocks = st.blocks)
    ∧ (∀ (st : ScanState) (cb : OpenBlock), st.current = some cb →
       (finalizeScan st).errors
         = st.errors ++ [⟨unclosedMsg cb, cb.startLine, .error, some cb.type⟩]
       ∧ (finalizeScan st).blocks = st.blocks) := by
  constructor
  · intro st cb n line ty attrs hcur hopen
    unfold scanStep
    simp [hopen, hcur]
  · intro st cb hcur
    unfold finalizeScan
    simp [hcur]

theorem c5_unclosed_error_policy_witness :
    (⟨[], [], some ⟨"a", [], 1, "::: a"⟩, []⟩ : ScanState).current = some ⟨"a", [], 1, "::: a"⟩
    ∧ matchOpenMarker "::: b" = some ("b", none)
    ∧ (scanStep ⟨[], [], some ⟨"a", [], 1, "::: a"⟩, []⟩ (2, "::: b")).errors
        = [⟨unclosedMsg ⟨"a", [], 1, "::: a"⟩, 2, .error, some "a"⟩]
    ∧ (finalizeScan ⟨[], [], some ⟨"a", [], 1, "::: a"⟩, []⟩).errors
        = [⟨unclosedMsg ⟨"a", [], 1, "::: a"⟩, 1, .error, some "a"⟩] :=
  ⟨rfl, by decide,
    by
      have h := (c5_unclosed_error_policy.1 ⟨[], [], some ⟨"a", [], 1, "::: a"⟩, []⟩
        ⟨"a", [], 1, "::: a"⟩ 2 "::: b" "b" none rfl (by decide)).1
      simpa using h,
    by
      have h := (c5_unclosed_error_policy.2 ⟨[], [], some ⟨"a", [], 1, "::: a"⟩, []⟩
        ⟨"a", [], 1, "::: a"⟩ rfl).1
      simpa using h⟩

theorem isPrefixOf_append_self (p t : List Char) : p.isPrefixOf (p ++ t) = true := by
  induction p with
  | nil => simp [List.isPrefixOf]
  | cons a as ih => simp [List.isPrefixOf, ih]

theorem isPrefixOf_cons_false (a : Char) (as : List Char) (b : Char) (bs : List Char)
    (h : ¬ b = a) : (a :: as).isPrefixOf (b :: bs) = false := by
  simp [List.isPrefixOf]
  intro he
  exact absurd he.symm h

theorem splitFirst_no_head (p0 : Char) (prest xs t : List Char)
    (h : ∀ x ∈ xs, ¬ x = p0) :
    splitFirst (p0 :: prest) (xs ++ ((p0 :: prest) ++ t)) = some (xs, t) := by
  induction xs with
  | nil =>
    rw [List.nil_append, List.cons_append, splitFirst]
    have hp : (p0 :: prest).isPrefixOf (p0 :: (prest ++ t)) = true := by
      have := isPrefixOf_append_self (p0 :: prest) t
      simpa using this
    rw [if_pos hp]
    have hd : (p0 :: (prest ++ t)).drop (p0 :: prest).length = t := by
      simp [List.drop_left]
    rw [hd]
  | cons a xs ih =>
    have ha : ¬ a = p0 := h a (List.mem_cons_self a xs)
    have hxs : ∀ x ∈ xs, ¬ x = p0 := fun x hx => h x (List.mem_cons_of_mem a hx)
    rw [List.cons_append, splitFirst]
    rw [if_neg (by rw [isPrefixOf_cons_false p0 prest a _ ha]; simp)]
    rw [ih hxs]

theorem goReplace_zero (m : List Char → Option (List Char × List Char)) (l : List Char) :
    goReplace m 0 l = l := by
  cases l <;> rfl

theorem goReplace_id_of_head (m : List Char → Option (List Char × List Char)) (trig : Char)
    (hm : ∀ ch cs, ¬ ch = trig → m (ch :: cs) = none) :
    ∀ (fuel : Nat) (l : List Char), (∀ ch ∈ l, ¬ ch = trig) → goReplace m fuel l = l := by
  intro fuel
  induction fuel with
  | zero => intro l _; exact goReplace_zero m l
  | succ n ih =>
    intro l hl
    cases l with
    | nil => rfl
    | cons ch cs =>
      rw [goReplace, hm ch cs (hl ch (List.mem_cons_self ch cs))]
      rw [ih cs (fun x hx => hl x (List.mem_cons_of_mem ch hx))]

theorem data_append (s t : String) : (s ++ t).data = s.data ++ t.data := rfl

theorem mk_data (s : String) : String.mk s.data = s := rfl

theorem countLeading_cons (p : Char → Bool) (a : Char) (l : List Char) :
    countLeading p (a :: l) = if p a then countLeading p l + 1 else 0 := rfl

theorem goReplace_nil (m : List Char → Option (List Char × List Char)) (fuel : Nat) :
    goReplace m fuel [] = [] := by
  cases fuel <;> rfl

theorem goReplace_step (m : List Char → Option (List Char × List Char)) (fuel : Nat)
    (a : Char) (l : List Char) :
    goReplace m (fuel + 1) (a :: l)
      = match m (a :: l) with
        | some (rep, rest) => rep ++ goReplace m fuel rest
        | none => a :: goReplace m fuel l := rfl

theorem jsReplaceAll_id (m : List Char → Option (List Char × List Char)) (trig : Char)
    (hm : ∀ a l, ¬ a = trig → m (a :: l) = none)
    (s : String) (h : ∀ ch ∈ s.data, ¬ ch = trig) : jsReplaceAll m s = s := by
  unfold jsReplaceAll
  rw [goReplace_id_of_head m trig hm _ _ h]

theorem matchWrapperAt_none (opener key closer : String) (o0 : Char) (orest : List Char)
    (ho : opener.data = o0 :: orest) (a : Char) (l : List Char) (ha : ¬ a = o0) :
    matchWrapperAt opener key closer (a :: l) = none := by
  unfold matchWrapperAt
  rw [ho, isPrefixOf_cons_false o0 orest a l ha]
  rfl

theorem matchContainerAt_none (opener closer : String) (o0 : Char) (orest : List Char)
    (ho : opener.data = o0 :: orest) (a : Char) (l : List Char) (ha : ¬ a = o0) :
    matchContainerAt opener closer (a :: l) = none := by
  unfold matchContainerAt
  rw [ho, isPrefixOf_cons_false o0 orest a l ha]
  rfl

theorem matchTabsAt_none (a : Char) (l : List Char) (ha : ¬ a = '<') :
    matchTabsAt (a :: l) = none := by
  unfold matchTabsAt
  rw [show ("<Tabs").data = '<' :: "Tabs".data from rfl,
    isPrefixOf_cons_false '<' "Tabs".data a l ha]
  rfl

theorem matchCodeBlockAt_none (a : Char) (l : List Char) (ha : ¬ a = '<') :
    matchCodeBlockAt (a :: l) = none := by
  unfold matchCodeBlockAt
  rw [show ("<CodeBlock").data = '<' :: "CodeBlock".data from rfl,
    isPrefixOf_cons_false '<' "CodeBlock".data a l ha]
  rfl

theorem matchFenceTitleAt_none (a : Char) (l : List Char) (ha : ¬ a = '\x60') :
    matchFenceTitleAt (a :: l) = none := by
  unfold matchFenceTitleAt
  rw [show ("\x60\x60\x60").data = '\x60' :: "\x60\x60".data from rfl,
    isPrefixOf_cons_false '\x60' "\x60\x60".data a l ha]
  rfl

theorem convertTabs_id (s : String) (h : ∀ ch ∈ s.data, ¬ ch = '<') : convertTabs s = s := by
  unfold convertTabs
  refine jsReplaceAll_id _ '<' ?_ s h
  intro a l ha
  dsimp only
  rw [matchTabsAt_none a l ha]

theorem convertSteps_id (s : String) (h : ∀ ch ∈ s.data, ¬ ch = '<') : convertSteps s = s := by
  unfold convertSteps
  refine jsReplaceAll_id _ '<' ?_ s h
  intro a l ha
  dsimp only
  rw [matchContainerAt_none "<Steps" "</Steps>" '<' "Steps".data rfl a l ha]

theorem convertAccordions_id (s : String) (h : ∀ ch ∈ s.data, ¬ ch = '<') :
    convertAccordions s = s := by
  unfold convertAccordions
  refine jsReplaceAll_id _ '<' ?_ s h
  intro a l ha
  dsimp only
  rw [matchContainerAt_none "<Accordions" "</Accordions>" '<' "Accordions".data rfl a l ha]

theorem convertFiles_id (s : String) (h : ∀ ch ∈ s.data, ¬ ch = '<') : convertFiles s = s := by
  unfold convertFiles
  refine jsReplaceAll_id _ '<' ?_ s h
  intro a l ha
  dsimp only
  rw [matchContainerAt_none "<Files" "</Files>" '<' "Files".data rfl a l ha]

theorem convertCodeBlocks_id (s : String) (h : ∀ ch ∈ s.data, ¬ ch = '<') :
    convertCodeBlocks s = s := by
  unfold convertCodeBlocks
  refine jsReplaceAll_id _ '<' ?_ s h
  intro a l ha
  dsimp only
  rw [matchCodeBlockAt_none a l ha]

theorem convertBanners_id (s : String) (h : ∀ ch ∈ s.data, ¬ ch = '<') :
    convertBanners s = s := by
  unfold convertBanners
  refine jsReplaceAll_id _ '<' ?_ s h
  intro a l ha
  dsimp only
  rw [matchWrapperAt_none "<Banner" "type" "</Banner>" '<' "Banner".data rfl a l ha]

theorem removeCodeBlockTitles_id (s : String) (h : ∀ ch ∈ s.data, ¬ ch = '\x60') :
    removeCodeBlockTitles s = s := by
  unfold removeCodeBlockTitles
  refine jsReplaceAll_id _ '\x60' ?_ s h
  intro a l ha
  dsimp only
  rw [matchFenceTitleAt_none a l ha]

theorem trimChars_cons_nl (l : List Char) : trimChars ('\n' :: l) = trimChars l := by
  simp [trimChars, List.dropWhile_cons, isJsWs]

theorem trimChars_snoc_nl (l : List Char) : trimChars (l ++ ['\n']) = trimChars l := by
  unfold trimChars
  rw [List.dropWhile_append]
  by_cases h : (List.dropWhile isJsWs l).isEmpty
  · rw [if_pos h]
    simp only [List.isEmpty_iff] at h
    rw [h]
    simp [List.dropWhile_cons, isJsWs]
  · rw [if_neg h]
    rw [List.reverse_append]
    simp [List.dropWhile_cons, isJsWs]

theorem jsTrim_wrap (c : String) :
    jsTrim (String.mk ('\n' :: (c.data ++ ['\n']))) = jsTrim c := by
  unfold jsTrim
  rw [show (String.mk ('\n' :: (c.data ++ ['\n']))).data = '\n' :: (c.data ++ ['\n']) from rfl]
  rw [trimChars_cons_nl, trimChars_snoc_nl]

theorem mem_of_mem_dropWhile (p : Char → Bool) (l : List Char) (x : Char)
    (h : x ∈ l.dropWhile p) : x ∈ l := by
  induction l with
  | nil => simpa using h
  | cons a as ih =>
    rw [List.dropWhile_cons] at h
    by_cases hp : p a = true
    · rw [if_pos hp] at h
      exact List.mem_cons_of_mem a (ih h)
    · rw [if_neg hp] at h
      exact h

theorem mem_of_mem_trimChars (x : Char) (l : List Char) (h : x ∈ trimChars l) : x ∈ l := by
  unfold trimChars at h
  rw [List.mem_reverse] at h
  have h2 := mem_of_mem_dropWhile _ _ _ h
  rw [List.mem_reverse] at h2
  exact mem_of_mem_dropWhile _ _ _ h2

theorem transformCallout_data (c : String) :
    (transformCallout c "warn").1.data
      = "<Callout type=\"warn\">".data ++ ('\n' :: (c.data ++ ('\n' :: "</Callout>".data))) := by
  have key : "<Callout type=\"".data ++ "warn".data ++ "\">\n".data
      = "<Callout type=\"warn\">".data ++ ['\n'] := by decide
  have key2 : ('\n' :: "</Callout>".data) = "\n</Callout>".data := by decide
  calc (transformCallout c "warn").1.data
      = ("<Callout type=\"".data ++ "warn".data ++ "\">\n".data)
          ++ (c.data ++ "\n</Callout>".data) := by
        show ("<Callout type=\"" ++ "warn" ++ "\">\n" ++ c ++ "\n</Callout>").data = _
        rw [data_append, data_append, data_append, data_append, List.append_assoc]
    _ = ("<Callout type=\"warn\">".data ++ ['\n']) ++ (c.data ++ "\n</Callout>".data) := by
        rw [key]
    _ = _ := by rw [← key2]; simp [List.append_assoc]

theorem matchWrapperAt_callout_shape (u : List Char) (hu : ∀ x ∈ u, ¬ x = '<') :
    matchWrapperAt "<Callout" "type" "</Callout>"
      ("<Callout type=\"warn\">".data ++ (u ++ "</Callout>".data))
      = some ("warn", String.mk u, []) := by
  have h1 : "<Callout type=\"warn\">".data
      = "<Callout".data ++ (' ' :: ("type=\"".data ++ ('w' :: "arn\">".data))) := by decide
  rw [h1, List.append_assoc]
  unfold matchWrapperAt
  rw [isPrefixOf_append_self, if_pos rfl, List.drop_left]
  dsimp only
  rw [List.cons_append, countLeading_cons]
  rw [if_pos (by decide : isJsWs ' ' = true)]
  rw [List.append_assoc, List.cons_append, countLeading_cons]
  rw [if_neg (by decide : ¬ isJsWs 't' = true)]
  rw [if_neg (by decide : ¬ (0 + 1 = 0))]
  simp only [Nat.zero_add, List.drop_succ_cons, List.drop_zero]
  rw [show ('t' :: (['y', 'p', 'e', '=', '\x22'] ++
        (['w', 'a', 'r', 'n', '\x22', '>'] ++ (u ++ ['<', '/', 'C', 'a', 'l', 'l', 'o', 'u', 't', '>']))))
      = ("type" ++ "=\x22").data ++
        (['w', 'a', 'r', 'n', '\x22', '>'] ++ (u ++ ['<', '/', 'C', 'a', 'l', 'l', 'o', 'u', 't', '>']))
      from rfl]
  rw [isPrefixOf_append_self, if_pos rfl]
  rw [show (['t', 'y', 'p', 'e'].length + 1) = (['y', 'p', 'e', '=', '\x22'] : List Char).length
      from rfl, List.drop_left]
  rw [show (['w', 'a', 'r', 'n', '\x22', '>'] ++ (u ++ ['<', '/', 'C', 'a', 'l', 'l', 'o', 'u', 't', '>']))
      = ['w', 'a', 'r', 'n'] ++ (['\x22'] ++ ('>' :: (u ++ ['<', '/', 'C', 'a', 'l', 'l', 'o', 'u', 't', '>'])))
      from rfl]
  rw [splitFirst_no_head '\x22' [] ['w', 'a', 'r', 'n'] _ (by decide)]
  dsimp only
  rw [if_neg (by decide : ¬ (['w', 'a', 'r', 'n'] = []))]
  rw [show ('>' :: (u ++ ['<', '/', 'C', 'a', 'l', 'l', 'o', 'u', 't', '>']))
      = [] ++ (['>'] ++ (u ++ ['<', '/', 'C', 'a', 'l', 'l', 'o', 'u', 't', '>'])) from rfl]
  rw [splitFirst_no_head '>' [] [] _ (by simp)]
  dsimp only
  rw [show (u ++ ['<', '/', 'C', 'a', 'l', 'l', 'o', 'u', 't', '>'])
      = u ++ (('<' :: ['/', 'C', 'a', 'l', 'l', 'o', 'u', 't', '>']) ++ []) from by simp]
  rw [splitFirst_no_head '<' ['/', 'C', 'a', 'l', 'l', 'o', 'u', 't', '>'] u [] hu]

theorem convertCallouts_wrapper (c : String) (hc : ∀ ch ∈ c.data, ¬ ch = '<') :
    convertCallouts (transformCallout c "warn").1
      = ":::callout-warn\n" ++ jsTrim c ++ "\n:::" := by
  have hu : ∀ x ∈ ('\n' :: (c.data ++ ['\n'])), ¬ x = '<' := by
    intro x hx
    rcases List.mem_cons.mp hx with h | h
    · subst h; decide
    · rcases List.mem_append.mp h with h | h
      · exact hc x h
      · rcases List.mem_cons.mp h with h | h
        · subst h; decide
        · exact absurd h (List.not_mem_nil x)
  unfold convertCallouts jsReplaceAll
  rw [transformCallout_data]
  rw [show ('\n' :: (c.data ++ ('\n' :: "</Callout>".data)))
      = (('\n' :: (c.data ++ ['\n'])) ++ "</Callout>".data) from by simp]
  rw [show ("<Callout type=\"warn\">".data ++ (('\n' :: (c.data ++ ['\n'])) ++ "</Callout>".data))
      = '<' :: ("Callout type=\"warn\">".data ++ (('\n' :: (c.data ++ ['\n'])) ++ "</Callout>".data))
      from rfl]
  rw [goReplace_step]
  rw [show ('<' :: ("Callout type=\"warn\">".data ++ (('\n' :: (c.data ++ ['\n'])) ++ "</Callout>".data)))
      = ("<Callout type=\"warn\">".data ++ (('\n' :: (c.data ++ ['\n'])) ++ "</Callout>".data))
      from rfl]
  dsimp only
  rw [matchWrapperAt_callout_shape _ hu]
  dsimp only
  rw [goReplace_nil, List.append_nil, jsTrim_wrap]
  rw [mk_data]
  rw [show ((":::callout-" ++ "warn" ++ "\n") : String) = ":::callout-warn\n" from by decide]

theorem splitLines_wrapper (c : String) (hnl : '\n' ∉ c.data) :
    splitLines (transformCallout c "warn").1
      = ["<Callout type=\"warn\">", c, "</Callout>"] := by
  unfold splitLines jsSplit
  rw [transformCallout_data]
  rw [splitOnCharFn_append, splitOnCharFn_append]
  rw [splitOnCharFn_of_not_mem '\n' ("<Callout type=\"warn\">".data) (by decide)]
  rw [splitOnCharFn_of_not_mem '\n' c.data hnl]
  rw [splitOnCharFn_of_not_mem '\n' ("</Callout>".data) (by decide)]
  simp [mk_data]

theorem removeImportsGo_false_id (L : List String)
    (h : ∀ l ∈ L,
      (startsWithStr "import " (jsTrim l) && containsSub "fumadocs-ui" (jsTrim l)) = false) :
    removeImportsGo false L = L := by
  induction L with
  | nil => rfl
  | cons line rest ih =>
    have h1 := h line (List.mem_cons_self line rest)
    have h2 : ∀ l ∈ rest,
        (startsWithStr "import " (jsTrim l) && containsSub "fumadocs-ui" (jsTrim l)) = false :=
      fun l hl => h l (List.mem_cons_of_mem line hl)
    rw [removeImportsGo]
    simp only [h1, Bool.false_eq_true, if_false, Bool.false_and, ite_self]
    rw [ih h2]

theorem removeImports_id (s : String)
    (h : ∀ l ∈ splitLines s,
      (startsWithStr "import " (jsTrim l) && containsSub "fumadocs-ui" (jsTrim l)) = false) :
    removeImports s = s := by
  unfold removeImports
  rw [removeImportsGo_false_id _ h, joinLines_splitLines]

/-- C7 (counterexample): the reverse transform is not a content inverse
of the forward transform on the whole documented subset: the forward
steps emitter writes a newline between the Step tag and the heading,
while the reverse Step matcher requires the heading to follow the
closing angle bracket immediately, so the emitted steps markup comes
back unchanged, contains no annotation marker at all, and is not
content-equivalent to any steps annotation. -/
theorem c7_steps_counterexample :
    (reverseTransform (transformSteps "step 1: Install deps").1).content
      = (transformSteps "step 1: Install deps").1
    ∧ (transformSteps "step 1: Install deps").1
      = "<Steps>\n<Step>\n## Step 1\nInstall deps\n</Step>\n</Steps>"
    ∧ containsSub ":::" (reverseTransform (transformSteps "step 1: Install deps").1).content
      = false :=
  ⟨by decide, by decide, by decide⟩

/-- C7 (amended): the callout clause of the round trip holds generally:
for every single-line callout content with no angle bracket,
backtick or newline character, and whose trimmed text is not a
fumadocs-ui import declaration, the reverse transform of the wrapper the
forward callout transformer emits reproduces the annotation exactly
(content trimmed), with no errors and no imports. -/
theorem c7_reverse_callout_roundtrip (c : String)
    (hplain : ∀ ch ∈ c.data, plainChar ch = true)
    (himp : (startsWithStr "import " (jsTrim c) && containsSub "fumadocs-ui" (jsTrim c)) = false) :
    reverseTransform (transformCallout c "warn").1
      = ⟨":::callout-warn\n" ++ jsTrim c ++ "\n:::", [], []⟩ := by
  have hsplit : ∀ ch ∈ c.data, ¬ ch = '<' ∧ ¬ ch = '\x60' ∧ ¬ ch = '\n' := by
    intro ch hch
    have := hplain ch hch
    simp [plainChar] at this
    exact ⟨this.1.1, this.1.2, this.2⟩
  have hlt : ∀ ch ∈ c.data, ¬ ch = '<' := fun ch hch => (hsplit ch hch).1
  have hbt : ∀ ch ∈ c.data, ¬ ch = '\x60' := fun ch hch => (hsplit ch hch).2.1
  have hnl : '\n' ∉ c.data := fun hm => ((hsplit '\n' hm).2.2) rfl
  have h1 : removeImports (transformCallout c "warn").1 = (transformCallout c "warn").1 := by
    apply removeImports_id
    intro l hl
    rw [splitLines_wrapper c hnl] at hl
    rcases List.mem_cons.mp hl with h | h
    · subst h; decide
    · rcases List.mem_cons.mp h with h | h
      · subst h; exact himp
      · rcases List.mem_cons.mp h with h | h
        · subst h; decide
        · exact absurd h (List.not_mem_nil l)
  have h2 : removeCodeBlockTitles (transformCallout c "warn").1
      = (transformCallout c "warn").1 := by
    unfold removeCodeBlockTitles
    refine jsReplaceAll_id _ '\x60' ?_ _ ?_
    · intro a l ha
      simp only [matchFenceTitleAt_none a l ha]
    · intro ch hch
      rw [transformCallout_data] at hch
      rcases List.mem_append.mp hch with h | h
      · exact (by decide : ∀ x ∈ ("<Callout type=\"warn\">").data, ¬ x = '\x60') ch h
      · rcases List.mem_cons.mp h with h | h
        · subst h; decide
        · rcases List.mem_append.mp h with h | h
          · exact hbt ch h
          · rcases List.mem_cons.mp h with h | h
            · subst h; decide
            · exact (by decide : ∀ x ∈ ("</Callout>").data, ¬ x = '\x60') ch h
  have h3 := convertCallouts_wrapper c hlt
  have hR : ∀ ch ∈ ((":::callout-warn\n" ++ jsTrim c ++ "\n:::" : String)).data, ¬ ch = '<' := by
    intro ch hch
    rw [data_append, data_append] at hch
    rcases List.mem_append.mp hch with h | h
    · rcases List.mem_append.mp h with h | h
      · exact (by decide : ∀ x ∈ (":::callout-warn\n").data, ¬ x = '<') ch h
      · exact hlt ch (mem_of_mem_trimChars ch c.data h)
    · exact (by decide : ∀ x ∈ ("\n:::").data, ¬ x = '<') ch h
  unfold reverseTransform reverseTransformPipeline convertComponentsToAnnotations
  rw [h1, h2, h3, convertTabs_id _ hR, convertSteps_id _ hR, convertAccordions_id _ hR,
    convertCodeBlocks_id _ hR, convertFiles_id _ hR, convertBanners_id _ hR]
  rfl

theorem c7_reverse_callout_roundtrip_witness :
    (∀ ch ∈ ("Be careful" : String).data, plainChar ch = true)
    ∧ ((startsWithStr "import " (jsTrim "Be careful")
        && containsSub "fumadocs-ui" (jsTrim "Be careful")) = false)
    ∧ reverseTransform (transformCallout "Be careful" "warn").1
        = ⟨":::callout-warn\nBe careful\n:::", [], []⟩ := by
  refine ⟨by decide, by decide, ?_⟩
  have h := c7_reverse_callout_roundtrip "Be careful" (by decide) (by decide)
  rw [h]
  rfl

/-- C10: reverseTransform is atomic on error and import-free on every
path: the catch branch returns the input content unchanged with an
empty set of imports and exactly one error of kind error, and every
result of the
function (whose pipeline is total in this model, so it never throws)
carries an empty import set; the success path also carries no errors. -/
theorem c10_reverse_atomic :
    (∀ (content msg : String),
        reverseTransformCore (.error msg) content
          = ⟨content, [], [⟨"Reverse transformation error: " ++ msg, 0, .error, none⟩]⟩)
    ∧ (∀ (content : String) (outcome : Except String String),
        (reverseTransformCore outcome content).imports = [])
    ∧ (∀ content : String, (reverseTransform content).imports = []
        ∧ (reverseTransform content).errors = []) := by
  refine ⟨fun content msg => rfl, ?_, fun content => ⟨rfl, rfl⟩⟩
  intro content outcome
  cases outcome <;> rfl

/-! File-forest wellformedness invariant for the files parser. -/

theorem attachNode_wf (rs : List FileTreeNode) (stk : List FStackEntry) (n : FileTreeNode)
    (h1 : ∀ x ∈ rs, WfNode x) (h2 : ∀ e ∈ stk, ∀ x ∈ e.acc, WfNode x) (hn : WfNode n) :
    (∀ x ∈ (attachNode rs stk n).1, WfNode x)
    ∧ (∀ e ∈ (attachNode rs stk n).2, ∀ x ∈ e.acc, WfNode x) := by
  cases stk with
  | nil =>
    constructor
    · intro x hx
      have hx2 : x ∈ rs ++ [n] := hx
      rcases List.mem_append.mp hx2 with hx3 | hx3
      · exact h1 x hx3
      · rw [List.mem_singleton.mp hx3]
        exact hn
    · intro e he
      have : e ∈ ([] : List FStackEntry) := he
      simp at this
  | cons top rest =>
    constructor
    · exact h1
    · intro e he x hx
      have he2 : e ∈ { top with acc := top.acc ++ [n] } :: rest := he
      rcases List.mem_cons.mp he2 with he3 | he3
      · subst he3
        rcases List.mem_append.mp hx with hx3 | hx3
        · exact h2 top (List.mem_cons_self top rest) x hx3
        · rw [List.mem_singleton.mp hx3]
          exact hn
      · exact h2 e (List.mem_cons_of_mem top he3) x hx

theorem closeEntry_wf (e : FStackEntry) (h : ∀ x ∈ e.acc, WfNode x) :
    WfNode (closeEntry e) :=
  WfNode.dir e.name e.acc e.level h

theorem popAttach_wf (rest : List FStackEntry) :
    ∀ (rs : List FileTreeNode) (node : FileTreeNode) (lvl : Nat),
    (∀ x ∈ rs, WfNode x) → (∀ e ∈ rest, ∀ x ∈ e.acc, WfNode x) → WfNode node →
    (∀ x ∈ (popAttach rs rest node lvl).1, WfNode x)
    ∧ (∀ e ∈ (popAttach rs rest node lvl).2, ∀ x ∈ e.acc, WfNode x) := by
  induction rest with
  | nil =>
    intro rs node lvl h1 h2 hn
    constructor
    · intro x hx
      rcases List.mem_append.mp hx with hx3 | hx3
      · exact h1 x hx3
      · rw [List.mem_singleton.mp hx3]
        exact hn
    · simp [popAttach]
  | cons t2 r2 ih =>
    intro rs node lvl h1 h2 hn
    have ht2 : ∀ x ∈ t2.acc ++ [node], WfNode x := by
      intro x hx
      rcases List.mem_append.mp hx with hx3 | hx3
      · exact h2 t2 (List.mem_cons_self t2 r2) x hx3
      · rw [List.mem_singleton.mp hx3]
        exact hn
    have hr2 : ∀ e ∈ r2, ∀ x ∈ e.acc, WfNode x :=
      fun e he => h2 e (List.mem_cons_of_mem t2 he)
    rw [popAttach]
    by_cases hge : t2.level ≥ lvl
    · rw [if_pos hge]
      exact ih rs (closeEntry { t2 with acc := t2.acc ++ [node] }) lvl h1 hr2
        (closeEntry_wf _ ht2)
    · rw [if_neg hge]
      constructor
      · exact h1
      · intro e he x hx
        rcases List.mem_cons.mp he with he3 | he3
        · subst he3
          exact ht2 x hx
        · exact hr2 e he3 x hx

theorem popGE_wf (stk : List FStackEntry) (rs : List FileTreeNode) (lvl : Nat)
    (h1 : ∀ x ∈ rs, WfNode x) (h2 : ∀ e ∈ stk, ∀ x ∈ e.acc, WfNode x) :
    (∀ x ∈ (popGE rs stk lvl).1, WfNode x)
    ∧ (∀ e ∈ (popGE rs stk lvl).2, ∀ x ∈ e.acc, WfNode x) := by
  cases stk with
  | nil => exact ⟨h1, by simp [popGE]⟩
  | cons top rest =>
    have htop : ∀ x ∈ top.acc, WfNode x := h2 top (List.mem_cons_self top rest)
    have hrest : ∀ e ∈ rest, ∀ x ∈ e.acc, WfNode x :=
      fun e he => h2 e (List.mem_cons_of_mem top he)
    rw [popGE]
    by_cases hge : top.level ≥ lvl
    · rw [if_pos hge]
      exact popAttach_wf rest rs (closeEntry top) lvl h1 hrest (closeEntry_wf top htop)
    · rw [if_neg hge]
      exact ⟨h1, h2⟩

theorem filesLineStep_wf (st : List FileTreeNode × List FStackEntry) (line : String)
    (h1 : ∀ x ∈ st.1, WfNode x) (h2 : ∀ e ∈ st.2, ∀ x ∈ e.acc, WfNode x) :
    (∀ x ∈ (filesLineStep st line).1, WfNode x)
    ∧ (∀ e ∈ (filesLineStep st line).2, ∀ x ∈ e.acc, WfNode x) := by
  obtain ⟨hp1, hp2⟩ := popGE_wf st.2 st.1 (countLeading isJsWs line.data) h1 h2
  simp only [filesLineStep]
  split
  · exact attachNode_wf _ _ _ hp1 hp2 (WfNode.file _ _)
  · constructor
    · exact hp1
    · intro e he x hx
      rcases List.mem_cons.mp he with he3 | he3
      · subst he3
        simp at hx
      · exact hp2 e he3 x hx

theorem foldl_filesLineStep_wf (lines : List String) :
    ∀ (st : List FileTreeNode × List FStackEntry),
    (∀ x ∈ st.1, WfNode x) → (∀ e ∈ st.2, ∀ x ∈ e.acc, WfNode x) →
    (∀ x ∈ (lines.foldl filesLineStep st).1, WfNode x)
    ∧ (∀ e ∈ (lines.foldl filesLineStep st).2, ∀ x ∈ e.acc, WfNode x) := by
  induction lines with
  | nil => intro st h1 h2; exact ⟨h1, h2⟩
  | cons l rest ih =>
    intro st h1 h2
    obtain ⟨g1, g2⟩ := filesLineStep_wf st l h1 h2
    exact ih (filesLineStep st l) g1 g2

theorem parseFilesContent_wf (content : String) :
    ∀ x ∈ parseFilesContent content, WfNode x := by
  unfold parseFilesContent
  obtain ⟨g1, g2⟩ := foldl_filesLineStep_wf (contentLines content) ([], [])
    (by simp) (by simp)
  exact (popGE_wf _ _ 0 g1 g2).1

/-- C9: parsing a files-block content yields a forest in which a node is a
directory exactly when its trimmed source line ends in a slash: every
directory node carries a children array (possibly empty) and no file node
does, recursively (the wellformedness invariant), and the concrete content
of the claim parses to one root directory src containing, in order, the
file a.ts and the directory lib with the single file b.ts (levels store
twice the halved indentation count of the source). -/
theorem c9_files_forest_shape :
    (∀ content : String, ∀ x ∈ parseFilesContent content, WfNode x)
    ∧ parseFilesContent "src/\n  a.ts\n  lib/\n    b.ts"
        = [.mk "src"
            (some [.mk "a.ts" none true 2,
                   .mk "lib" (some [.mk "b.ts" none true 4]) false 2])
            false 0] :=
  ⟨parseFilesContent_wf, rfl⟩

theorem c9_files_forest_shape_witness :
    WfNode (FileTreeNode.mk "src"
      (some [FileTreeNode.mk "a.ts" none true 2,
             FileTreeNode.mk "lib" (some [FileTreeNode.mk "b.ts" none true 4]) false 2])
      false 0) := by
  have hm : FileTreeNode.mk "src"
      (some [FileTreeNode.mk "a.ts" none true 2,
             FileTreeNode.mk "lib" (some [FileTreeNode.mk "b.ts" none true 4]) false 2])
      false 0 ∈ parseFilesContent "src/\n  a.ts\n  lib/\n    b.ts" := by
    rw [c9_files_forest_shape.2]
    exact List.mem_singleton.mpr rfl
  exact c9_files_forest_shape.1 _ _ hm
